import Mathlib

/-!
Verification of the coordinator-side consistency core of the storage proxy
(service/storage_proxy.cc): the write response handler state machine, the
Paxos (LWT) coordinator loop, the accept-phase decision procedure, the
digest read resolver, the read reconciliation retry loop, and the Paxos
participant computation.

Machine integers: the counters involved (acks, failures, replica counts)
are size_t values bounded by the replica-set size, far below 2^64, so they
are embedded as Nat. Where 64/128-bit arithmetic matters (the retry-limit
computation, which the source performs in unsigned __int128 before clamping
to query::max_rows), the embedding mirrors the clamping explicitly.
-/

set_option maxHeartbeats 1000000

/-! ## Write response handler (abstract_write_response_handler)

Embeds the state of one `abstract_write_response_handler` for a simple
(non-datacenter-aware) consistency level, i.e. the `write_response_handler`
subclass whose `waited_for` is always true and whose `_total_endpoints` is
the number of contacted targets. -/

/-- The `_error` field of the handler: NONE / TIMEOUT / FAILURE. -/
inductive WError where
  | noe
  | timedout
  | failed
  deriving Repr, DecidableEq

/-- State of one write response handler. `fires` counts how many times the
completion chain (`delay` ending in the future being made ready) has been
started by `signal`; the source starts it exactly when `_cl_achieved` flips
to true. `clIsAny` records whether `_cl == db::consistency_level::ANY`. -/
structure WriteHandler where
  targets : List Nat
  deadEndpoints : List Nat
  totalBlockFor : Nat
  totalEndpoints : Nat
  clAcks : Nat
  failedCount : Nat
  allFailures : Nat
  clAchieved : Bool
  err : WError
  clIsAny : Bool
  fires : Nat
  deriving Repr, DecidableEq

/-- Constructor of `write_response_handler`: `_total_endpoints = _targets.size()`,
counters zero, no error. `blockFor` stands for `db::block_for(ks, cl)` plus
pending endpoints, which the source computes before the handler runs. -/
def mkWriteHandler (targets deadEndpoints : List Nat) (blockFor : Nat) (clIsAny : Bool) :
    WriteHandler :=
  { targets := targets
    deadEndpoints := deadEndpoints
    totalBlockFor := blockFor
    totalEndpoints := targets.length
    clAcks := 0
    failedCount := 0
    allFailures := 0
    clAchieved := false
    err := .noe
    clIsAny := clIsAny
    fires := 0 }

/-- `abstract_write_response_handler::signal(size_t nr)`: add `nr` acks and,
if the consistency level just became achieved, start the completion chain. -/
def WriteHandler.signal (h : WriteHandler) (nr : Nat) : WriteHandler :=
  let acks := h.clAcks + nr
  if ¬h.clAchieved ∧ h.totalBlockFor ≤ acks then
    { h with clAcks := acks, clAchieved := true, fires := h.fires + 1 }
  else
    { h with clAcks := acks }

/-- `abstract_write_response_handler::response(from)`: an ack from a contacted
target is counted (via `signal(from)`, whose `waited_for` is true for the
simple handler) and the target is removed; an ack from anybody else is logged
as outdated and discarded. Returns true when no targets remain. -/
def WriteHandler.response (h : WriteHandler) (src : Nat) : WriteHandler × Bool :=
  if src ∈ h.targets then
    let h1 := h.signal 1
    let h2 := { h1 with targets := h1.targets.erase src }
    (h2, h2.targets.isEmpty)
  else
    (h, h.targets.isEmpty)

/-- `abstract_write_response_handler::failure(from, count, err)` for the simple
handler (`waited_for` true): add to `_failed` and, when the consistency level
can no longer be reached, record the error; returns true when the handler is
no longer needed. -/
def WriteHandler.failureAcc (h : WriteHandler) (count : Nat) : WriteHandler × Bool :=
  let h1 := { h with failedCount := h.failedCount + count }
  if h1.totalEndpoints < h1.totalBlockFor + h1.failedCount then
    ({ h1 with err := .failed }, true)
  else
    (h1, false)

/-- `abstract_write_response_handler::failure_response`: a failure from an
uncontacted endpoint is discarded as outdated; otherwise `_all_failures` grows
and, except for CL=ANY (which may still succeed through hints), the failure is
counted against the consistency level. -/
def WriteHandler.failure_response (h : WriteHandler) (src : Nat) (count : Nat) :
    WriteHandler × Bool :=
  if src ∈ h.targets then
    let h1 := { h with allFailures := h.allFailures + count }
    if h1.clIsAny then (h1, false) else h1.failureAcc count
  else
    (h, false)

/-- `storage_proxy::hint_to_dead_endpoints(mh, targets, type, tr_state)`: the
number of targets for which a hint was successfully stored. `hintStored`
abstracts `mutation_holder::store_hint` together with `hints_enabled`. -/
def hint_to_dead_endpoints (hintStored : Nat → Bool) (targets : List Nat) : Nat :=
  (targets.filter hintStored).length

/-- `abstract_write_response_handler::timeout_cb()`: when the consistency level
was achieved, or is ANY, write hints for the still-outstanding targets and
count them via `signal`; then `on_timeout()` records a TIMEOUT error. The
caller removes the handler afterwards. -/
def WriteHandler.timeout_cb (hintStored : Nat → Bool) (h : WriteHandler) : WriteHandler :=
  let h1 :=
    if h.clAchieved ∨ h.clIsAny then
      h.signal (hint_to_dead_endpoints hintStored h.targets)
    else
      h
  { h1 with err := .timedout }

/-- `storage_proxy::hint_to_dead_endpoints(response_id, cl)` run by
`mutate_begin` before sending: hints for the handler's dead endpoints are
stored and, only for CL=ANY, counted towards consistency. -/
def WriteHandler.hintToDeadOnBegin (hintStored : Nat → Bool) (h : WriteHandler) : WriteHandler :=
  let hints := hint_to_dead_endpoints hintStored h.deadEndpoints
  if h.clIsAny then h.signal hints else h

/-- Terminal outcome read off by the handler destructor: success when the
consistency level was achieved, otherwise the recorded timeout or failure
exception with its `(received, [failed,] block_for)` payload. -/
inductive WOutcome where
  | success
  | timeoutExc (received required : Nat)
  | failureExc (received failed required : Nat)
  | pending
  deriving Repr, DecidableEq

/-- `~abstract_write_response_handler()`: which completion the `_ready` future
receives. -/
def WriteHandler.outcome (h : WriteHandler) : WOutcome :=
  if h.clAchieved then .success
  else
    match h.err with
    | .timedout => .timeoutExc h.clAcks h.totalBlockFor
    | .failed => .failureExc h.clAcks h.failedCount h.totalBlockFor
    | .noe => .pending

/-- A handler slot as held by `storage_proxy::_response_handlers`: `removed`
means the id is no longer in the table (the expiry timer is cancelled on
removal). -/
structure HandlerSlot where
  h : WriteHandler
  removed : Bool
  deriving Repr, DecidableEq

/-- External events delivered to the coordinator for one write. -/
inductive WEvent where
  | ack (src : Nat)
  | fail (src : Nat) (count : Nat)
  | timerFire
  deriving Repr, DecidableEq

/-- `abstract_write_response_handler::check_for_early_completion()`: when every
leftover target has reported an error there is nothing to wait for, so the
timeout path runs at once. -/
def checkEarlyCompletion (hintStored : Nat → Bool) (s : HandlerSlot) : HandlerSlot :=
  if s.h.allFailures = s.h.targets.length then
    { h := s.h.timeout_cb hintStored, removed := true }
  else
    s

/-- `storage_proxy::got_response`: a response for an id absent from the table
is a no-op. -/
def got_response (hintStored : Nat → Bool) (s : HandlerSlot) (src : Nat) : HandlerSlot :=
  if s.removed then s
  else
    let p := s.h.response src
    if p.2 then { h := p.1, removed := true }
    else checkEarlyCompletion hintStored { s with h := p.1 }

/-- `storage_proxy::got_failure_response`: a failure for an absent id is a
no-op; otherwise the handler decides whether it is still needed. -/
def got_failure_response (hintStored : Nat → Bool) (s : HandlerSlot) (src : Nat) (count : Nat) :
    HandlerSlot :=
  if s.removed then s
  else
    let p := s.h.failure_response src count
    if p.2 then { h := p.1, removed := true }
    else checkEarlyCompletion hintStored { s with h := p.1 }

/-- One coordinator step: the expiry timer is cancelled on removal, so a late
timer event is also a no-op. -/
def stepW (hintStored : Nat → Bool) (s : HandlerSlot) : WEvent → HandlerSlot
  | .ack src => got_response hintStored s src
  | .fail src count => got_failure_response hintStored s src count
  | .timerFire =>
    if s.removed then s else { h := s.h.timeout_cb hintStored, removed := true }

/-- Run a sequence of events against one handler slot. -/
def runW (hintStored : Nat → Bool) (s : HandlerSlot) : List WEvent → HandlerSlot
  | [] => s
  | e :: es => runW hintStored (stepW hintStored s e) es

/-- Fresh slot for a new write. -/
def initSlot (targets deadEndpoints : List Nat) (blockFor : Nat) (clIsAny : Bool) : HandlerSlot :=
  { h := mkWriteHandler targets deadEndpoints blockFor clIsAny, removed := false }

/-- The `_response_handlers` table, keyed by response id. -/
def lookupSlot : List (Nat × HandlerSlot) → Nat → Option HandlerSlot
  | [], _ => none
  | (k, s) :: t, id => if k = id then some s else lookupSlot t id

/-- `storage_proxy::got_response` at the table level: an id not present in the
table leaves the table untouched. -/
def got_response_table (hintStored : Nat → Bool) (tbl : List (Nat × HandlerSlot))
    (id src : Nat) : List (Nat × HandlerSlot) :=
  match lookupSlot tbl id with
  | none => tbl
  | some s => (id, got_response hintStored s src) :: tbl.filter (fun p => p.1 ≠ id)

/-- `storage_proxy::got_failure_response` at the table level: an id not present
in the table leaves the table untouched. -/
def got_failure_response_table (hintStored : Nat → Bool) (tbl : List (Nat × HandlerSlot))
    (id src count : Nat) : List (Nat × HandlerSlot) :=
  match lookupSlot tbl id with
  | none => tbl
  | some s => (id, got_failure_response hintStored s src count) :: tbl.filter (fun p => p.1 ≠ id)

/-! ## Paxos coordinator: begin_and_repair_paxos (C1, C5)

Embeds the retry loop of `paxos_response_handler::begin_and_repair_paxos`.
Ballots are represented by their microsecond timestamps (the UUID adds node
uniqueness bits which the loop logic never inspects beyond the timestamp).
The per-iteration interactions with the cluster (`prepare_ballot`,
`accept_proposal`, `learn_decision`, the most-recent-commit repair write) are
oracle inputs, one record per loop iteration. -/

/-- The `paxos::prepare_summary` fields the loop reads. `mostRecentProposal`
and `mostRecentCommit` carry the ballot timestamps of the newest
accepted-but-uncommitted proposal and the newest commit seen in the promises.
`hasMissingMrc` abstracts `replicas_missing_most_recent_commit(...)` being
nonempty; that helper lives in service/paxos/prepare_summary.cc, outside this
excerpt, and only its emptiness is consulted here. -/
structure PrepareSummary where
  promised : Bool
  mostRecentPromisedBallot : Nat
  mostRecentProposal : Option Nat
  mostRecentCommit : Option Nat
  hasMissingMrc : Bool
  deriving Repr, DecidableEq

/-- The guard at the repair sub-round: there is an in-progress accepted ballot
strictly newer than the most recent known commit. -/
def inProgressNewer (s : PrepareSummary) : Bool :=
  match s.mostRecentProposal, s.mostRecentCommit with
  | some _, none => true
  | some p, some c => decide (c < p)
  | none, _ => false

/-- What one call to `prepare_ballot` produced: a summary, or a propagated
timeout/failure exception. -/
inductive PrepOutcome where
  | threw
  | summary (s : PrepareSummary)
  deriving Repr, DecidableEq

/-- Oracle inputs for one iteration of the loop: the deadline check, the local
clock reading used for the ballot, and the outcomes of the remote phases. -/
structure IterOracle where
  pastDeadline : Bool
  clockNow : Nat
  prep : PrepOutcome
  acceptOk : Bool
  learnOk : Bool
  mrcRepairOk : Bool
  deriving Repr, DecidableEq

/-- Modelled from the spec: `client_state::get_timestamp_for_paxos` is not part
of this excerpt (src/ holds only its caller). Per the spec, a ballot timestamp
is time-based and unique for the node, never older than the last timestamp
this client state assigned (so strictly above `lastTs`), and never below the
requested minimum. -/
def get_timestamp_for_paxos (lastTs clockNow minTs : Nat) : Nat :=
  max (max clockNow (lastTs + 1)) minTs

/-- Loop-carried state: `min_timestamp_micros_to_use`, the client state's last
assigned timestamp, and the contention counter. -/
structure BPState where
  minTs : Nat
  lastTs : Nat
  contentions : Nat
  deriving Repr, DecidableEq

/-- How one call of `begin_and_repair_paxos` ends. -/
inductive BPResult where
  | timedOut
  | threw
  | ballot (b : Nat)
  deriving Repr, DecidableEq

/-- Observable actions of the loop, in order. -/
inductive BPEvent where
  | prepareSent (ballot : Nat)
  | repairAccept (newBallot proposalBallot : Nat)
  | repairLearn (newBallot : Nat)
  | mrcRepair
  deriving Repr, DecidableEq

/-- One iteration of the `while(true)` loop in `begin_and_repair_paxos`.
Returns the successor state, the actions taken, and `some r` when the
iteration leaves the loop (`none` = the source's `continue`). -/
def beginRepairIter (st : BPState) (o : IterOracle) :
    BPState × List BPEvent × Option BPResult :=
  if o.pastDeadline then
    (st, [], some .timedOut)
  else
    let ballot := get_timestamp_for_paxos st.lastTs o.clockNow st.minTs
    let st1 := { st with lastTs := ballot }
    match o.prep with
    | .threw => (st1, [.prepareSent ballot], some .threw)
    | .summary s =>
      if ¬s.promised then
        ({ st1 with contentions := st1.contentions + 1 }, [.prepareSent ballot], none)
      else
        let st2 := { st1 with minTs := s.mostRecentPromisedBallot + 1 }
        if inProgressNewer s then
          let p := s.mostRecentProposal.getD 0
          if o.acceptOk then
            if o.learnOk then
              (st2, [.prepareSent ballot, .repairAccept ballot p, .repairLearn ballot], none)
            else
              (st2, [.prepareSent ballot, .repairAccept ballot p], some .threw)
          else
            ({ st2 with contentions := st2.contentions + 1 },
             [.prepareSent ballot, .repairAccept ballot p], none)
        else
          if s.hasMissingMrc then
            if o.mrcRepairOk then
              (st2, [.prepareSent ballot, .mrcRepair], some (.ballot ballot))
            else
              (st2, [.prepareSent ballot, .mrcRepair], none)
          else
            (st2, [.prepareSent ballot], some (.ballot ballot))

/-- The retry loop of `begin_and_repair_paxos`, driven by one oracle record
per iteration; an exhausted script means the round is still retrying. -/
def begin_and_repair_paxos (st : BPState) : List IterOracle → List BPEvent × Option BPResult
  | [] => ([], none)
  | o :: os =>
    match beginRepairIter st o with
    | (st1, evs, none) =>
      let r := begin_and_repair_paxos st1 os
      (evs ++ r.1, r.2)
    | (_, evs, some res) => (evs, some res)

/-! ## Paxos accept phase: accept_proposal (C4)

Embeds the reply-processing cascade of
`paxos_response_handler::accept_proposal` as a decision procedure over the
stream of per-replica results. -/

/-- What one replica interaction yielded: an accept or reject verdict, a
non-timeout send error, or a timeout. -/
inductive AReply where
  | accept
  | reject
  | error
  | timeoutReply
  deriving Repr, DecidableEq

/-- The completion the accept-phase promise receives. -/
inductive ADecision where
  | accepted
  | rejected
  | timeoutExc (received required : Nat)
  | failureExc (received failed required : Nat)
  deriving Repr, DecidableEq

/-- The `request_tracker` of `accept_proposal`: reply counters plus the
optional promise ( `decision = none` while the promise is still pending). -/
structure AcceptState where
  accepts : Nat
  rejects : Nat
  errors : Nat
  decision : Option ADecision
  deriving Repr, DecidableEq

/-- Fresh tracker. -/
def acceptInit : AcceptState :=
  { accepts := 0, rejects := 0, errors := 0, decision := none }

/-- Processing of one reply in `accept_proposal` for required participant
count `required` over `live` live endpoints, with the
`timeout_if_partially_accepted` policy flag. Once the promise is fulfilled
the reply is ignored. -/
def accept_proposal_step (required live : Nat) (flag : Bool) (st : AcceptState)
    (r : AReply) : AcceptState :=
  if st.decision.isSome then st
  else
    let st1 :=
      match r with
      | .accept => { st with accepts := st.accepts + 1 }
      | .reject => { st with rejects := st.rejects + 1 }
      | .error => { st with errors := st.errors + 1 }
      | .timeoutReply => st
    let isTimeout := r = AReply.timeoutReply
    if st1.accepts = required then
      { st1 with decision := some .accepted }
    else if isTimeout then
      { st1 with decision := some (.timeoutExc (st1.accepts + st1.rejects) required) }
    else if live < required + st1.errors then
      { st1 with decision := some (.failureExc (st1.accepts + st1.rejects) st1.errors required) }
    else if live < required + st1.rejects + st1.errors ∧ ¬flag then
      { st1 with decision := some .rejected }
    else if st1.accepts + st1.rejects + st1.errors = live then
      if st1.accepts = 0 ∧ st1.errors = 0 then
        { st1 with decision := some .rejected }
      else
        { st1 with decision := some (.timeoutExc st1.accepts required) }
    else
      st1

/-- Run the accept phase over a stream of replica results. -/
def accept_proposal_run (required live : Nat) (flag : Bool) (st : AcceptState)
    (rs : List AReply) : AcceptState :=
  rs.foldl (accept_proposal_step required live flag) st

/-! ## Digest read resolver and read execution (C6)

Embeds `digest_read_resolver` (non-datacenter-local consistency, so
`waiting_for` is always true) and the reconciliation decision taken by
`abstract_read_executor::execute` on the resolved digests. Digests are
represented as Nat; `query::result_digest()` (the dummy digest pushed when
only one target was queried) is 0. -/

/-- State of one `digest_read_resolver`. `clResult` holds the
`digests_match` value delivered together with the data on the `_cl_promise`,
once `_cl_reported`. -/
structure DigestResolver where
  targetsCount : Nat
  blockFor : Nat
  clResponses : Nat
  clReported : Bool
  clResult : Option Bool
  hasData : Bool
  digestResults : List Nat
  requestFailed : Bool
  deriving Repr, DecidableEq

/-- `digest_read_resolver::digests_match()`: with a single response digests
trivially match; otherwise every digest must equal the first. -/
def DigestResolver.digests_match (r : DigestResolver) : Bool :=
  match r.digestResults with
  | [] => true
  | d :: ds => ds.all (fun x => x = d)

/-- `digest_read_resolver::got_response`: count the reply towards the
consistency level and, as soon as `block_for` replies and a full-data reply
are in, fulfil the `_cl_promise` with the current `digests_match`. -/
def DigestResolver.got_response_d (r : DigestResolver) : DigestResolver :=
  if ¬r.clReported then
    let r1 := { r with clResponses := r.clResponses + 1 }
    if r1.blockFor ≤ r1.clResponses ∧ r1.hasData then
      { r1 with clReported := true, clResult := some r1.digests_match }
    else
      r1
  else
    r

/-- `digest_read_resolver::add_data`: when only one target was queried the
digest calculation is skipped and a dummy digest is stored. -/
def DigestResolver.add_data (r : DigestResolver) (d : Nat) : DigestResolver :=
  if r.requestFailed then r
  else
    let r1 := { r with
      digestResults := r.digestResults ++ [if r.targetsCount = 1 then 0 else d],
      hasData := true }
    r1.got_response_d

/-- `digest_read_resolver::add_digest`. -/
def DigestResolver.add_digest (r : DigestResolver) (d : Nat) : DigestResolver :=
  if r.requestFailed then r
  else
    let r1 := { r with digestResults := r.digestResults ++ [d] }
    r1.got_response_d

/-- A reply reaching the digest resolver. -/
inductive RResp where
  | data (d : Nat)
  | digest (d : Nat)
  deriving Repr, DecidableEq

/-- Feed replies to the resolver in arrival order. -/
def runDigestResolver (r : DigestResolver) : List RResp → DigestResolver
  | [] => r
  | .data d :: t => runDigestResolver (r.add_data d) t
  | .digest d :: t => runDigestResolver (r.add_digest d) t

/-- Fresh resolver for `block_for` required replies over `targetsCount`
queried targets (the executor calls `add_wait_targets(_targets.size())`
before the first request). -/
def initDigestResolver (targetsCount blockFor : Nat) : DigestResolver :=
  { targetsCount := targetsCount
    blockFor := blockFor
    clResponses := 0
    clReported := false
    clResult := none
    hasData := false
    digestResults := []
    requestFailed := false }

/-- `abstract_read_executor::execute`, foreground branch: reconciliation runs
now iff the `_cl_promise` delivered non-matching digests. -/
def executeForegroundReconcile (r : DigestResolver) : Bool :=
  r.clResult = some false

/-- `abstract_read_executor::execute`, background branch run when
`digest_resolver->done()` resolves: a repair is started iff the foreground
result was already delivered on matching digests, more targets were queried
than the consistency level needed, and the full set of digests no longer
matches. -/
def executeBackgroundReconcile (r : DigestResolver) : Bool :=
  r.clResult = some true ∧ r.blockFor < r.targetsCount ∧ ¬r.digests_match

/-! ## Read reconciliation retry loop (C7, C8)

Embeds `abstract_read_executor::reconcile`: per round, mutation-data
requests are sent, the `data_read_resolver` outcome decides between
delivering (after awaiting `schedule_repair` for the computed diffs) and
retrying with enlarged limits. The resolver outcome of each round is an
oracle input. -/

/-- query::max_rows, modelled from the query layer headers (outside this
excerpt): the largest uint64 value. -/
def queryMaxRows : Nat := 2 ^ 64 - 1

/-- query::max_partitions, modelled likewise: the largest uint32 value. -/
def queryMaxPartitions : Nat := 2 ^ 32 - 1

/-- The limit-extrapolation lambda `x` in `reconcile`: computed in unsigned
__int128 (so no overflow for uint64 inputs; Nat arithmetic is exact) and
clamped to `query::max_rows`, which also makes the cast back to uint64
lossless. -/
def retryLimitX (t l : Nat) : Nat :=
  min queryMaxRows (if l = 0 then t + 1 else t * t / l + 1)

/-- The `all_partitions_x` lambda in `reconcile`. -/
def allPartitionsX (x partitions : Nat) : Nat :=
  min queryMaxRows (x * partitions)

/-- The row/partition limits of a `query::read_command` that `reconcile`
manipulates. -/
structure CmdLimits where
  rowLimit : Nat
  perPartitionLimit : Nat
  partitionLimit : Nat
  allowShortRead : Bool
  deriving Repr, DecidableEq

/-- Per-round oracle: what `data_read_resolver::done()`, `resolve(...)` and
the resolver accessors reported, plus whether the `schedule_repair` write
round succeeded. `incomplete` is `got_incomplete_information(...)` returning
true, which makes `resolve` return an empty optional. -/
structure ResolveOutcome where
  resolveThrew : Bool
  incomplete : Bool
  rrRowCount : Nat
  rrShortRead : Bool
  allReachedEnd : Bool
  anyPartitionShortRead : Bool
  increasePerPartitionLimit : Bool
  maxPerPartitionLiveCount : Nat
  partitionCount : Nat
  livePartitionCount : Nat
  totalLiveCount : Nat
  repairOk : Bool
  deriving Repr, DecidableEq

/-- Observable actions of one `reconcile` call, in order. -/
inductive RecEvent where
  | mutationDataReq (rowLimit : Nat)
  | repairScheduled
  | repairDone
  | setResult
  | setException
  | retryRound (newLimits : CmdLimits)
  deriving Repr, DecidableEq

/-- The condition under which round results are delivered rather than
retried: the reconciled result exists and either may be sent as a genuine
short read, or every replica exhausted its data, or the requested limits were
reached — and no partition hit a short per-partition read. `orig` carries
`original_row_limit()` / `original_partition_limit()`, which come from the
executor's original command, not the retry command. -/
def deliverCondition (orig : CmdLimits) (o : ResolveOutcome) : Bool :=
  let canShortRead := ¬o.incomplete ∧ o.rrShortRead ∧ 0 < o.rrRowCount
  ¬o.incomplete ∧
    (canShortRead ∨ o.allReachedEnd ∨ orig.rowLimit ≤ o.rrRowCount ∨
      orig.partitionLimit ≤ o.livePartitionCount) ∧
    ¬o.anyPartitionShortRead

/-- The `_retry_cmd` limits built by `reconcile` when the round result cannot
be trusted. -/
def buildRetryCmd (cmd : CmdLimits) (o : ResolveOutcome) : CmdLimits :=
  let c1 :=
    if o.anyPartitionShortRead ∨ o.increasePerPartitionLimit then
      let newPpl := retryLimitX cmd.perPartitionLimit o.maxPerPartitionLiveCount
      { cmd with
        perPartitionLimit := newPpl,
        rowLimit := max cmd.rowLimit (allPartitionsX newPpl o.partitionCount) }
    else
      let newPl := min queryMaxPartitions (retryLimitX cmd.partitionLimit o.livePartitionCount)
      let c := if cmd.partitionLimit ≠ queryMaxPartitions then
        { cmd with partitionLimit := newPl } else cmd
      if cmd.rowLimit ≠ queryMaxRows then
        { c with rowLimit := retryLimitX cmd.rowLimit o.totalLiveCount }
      else c
  if o.totalLiveCount = 0 then { c1 with allowShortRead := false } else c1

/-- One round of `reconcile`: `none` as second component means the call chain
ended (result or exception delivered); `some cmd` means a recursive call with
the retry command. -/
def reconcileRound (orig cmd : CmdLimits) (o : ResolveOutcome) :
    List RecEvent × Option CmdLimits :=
  if o.resolveThrew then
    ([.mutationDataReq cmd.rowLimit, .setException], none)
  else if deliverCondition orig o then
    if o.repairOk then
      ([.mutationDataReq cmd.rowLimit, .repairScheduled, .repairDone, .setResult], none)
    else
      ([.mutationDataReq cmd.rowLimit, .repairScheduled, .setException], none)
  else
    let newCmd := buildRetryCmd cmd o
    ([.mutationDataReq cmd.rowLimit, .retryRound newCmd], some newCmd)

/-- The full retry recursion of `reconcile`, driven by one oracle record per
round; an exhausted script means the read is still being retried. -/
def reconcileRun (orig : CmdLimits) : CmdLimits → List ResolveOutcome → List RecEvent
  | _, [] => []
  | cmd, o :: os =>
    match reconcileRound orig cmd o with
    | (evs, none) => evs
    | (evs, some newCmd) => evs ++ reconcileRun orig newCmd os

/-- The spec's description of the new limit: extrapolated as
limit * limit / live_rows_returned, clamped to the hard maximum, with
limit + 1 used when no live rows came back. Stated for comparison with the
source's `retryLimitX`. -/
def specRetryLimit (t l : Nat) : Nat :=
  min queryMaxRows (if l = 0 then t + 1 else t * t / l)

/-! ## Paxos participants (C10)

Embeds `storage_proxy::get_paxos_participants`. Endpoints are Nats;
`isLocal` abstracts `db::is_local` for the LOCAL_SERIAL branch, `alive`
abstracts the gossiper's liveness oracle. The proximity sort of the live
endpoint list is omitted: it permutes `live_endpoints` without changing any
count the function's control flow reads. -/

/-- The unavailable exception payloads thrown by `get_paxos_participants`:
`(required, alive)` counts, with `pendingFault` marking the
more-than-one-pending-endpoint variant (the overload carrying a message). -/
structure PaxosUnavailable where
  required : Nat
  liveCount : Nat
  pendingFault : Bool
  deriving Repr, DecidableEq

/-- The `paxos_participants` result. -/
structure PaxosParticipants where
  liveEndpoints : List Nat
  requiredParticipants : Nat
  hasDeadEndpoints : Bool
  deriving Repr, DecidableEq

/-- Natural endpoints after the LOCAL_SERIAL restriction. -/
def paxosNatural (localSerial : Bool) (isLocal : Nat → Bool) (naturalIn : List Nat) : List Nat :=
  if localSerial then naturalIn.filter isLocal else naturalIn

/-- Pending endpoints after the LOCAL_SERIAL restriction and removal of
endpoints already listed as natural. -/
def paxosPending (localSerial : Bool) (isLocal : Nat → Bool)
    (naturalIn pendingIn : List Nat) : List Nat :=
  let pend := if localSerial then pendingIn.filter isLocal else pendingIn
  pend.filter (fun p => ¬p ∈ paxosNatural localSerial isLocal naturalIn)

/-- `required_participants`: a quorum of the natural endpoints plus every
pending endpoint. -/
def paxosRequired (natural pending : List Nat) : Nat :=
  natural.length / 2 + 1 + pending.length

/-- The live subset, in replica order. -/
def paxosLive (alive : Nat → Bool) (natural pending : List Nat) : List Nat :=
  (natural ++ pending).filter alive

/-- `storage_proxy::get_paxos_participants`. -/
def get_paxos_participants (localSerial : Bool) (isLocal alive : Nat → Bool)
    (naturalIn pendingIn : List Nat) : Except PaxosUnavailable PaxosParticipants :=
  let natural := paxosNatural localSerial isLocal naturalIn
  let pending := paxosPending localSerial isLocal naturalIn pendingIn
  let participants := pending.length + natural.length
  let required := paxosRequired natural pending
  let live := paxosLive alive natural pending
  if live.length < required then
    .error { required := required, liveCount := live.length, pendingFault := false }
  else if 1 < pending.length then
    .error { required := participants + 1, liveCount := live.length, pendingFault := true }
  else
    .ok { liveEndpoints := live
          requiredParticipants := required
          hasDeadEndpoints := participants ≠ live.length }

/-! ## Helper lemmas: write response handler -/

theorem signal_def (h : WriteHandler) (n : Nat) :
    h.signal n =
      { h with
        clAcks := h.clAcks + n,
        clAchieved := h.clAchieved || decide (h.totalBlockFor ≤ h.clAcks + n),
        fires := h.fires +
          if ¬h.clAchieved ∧ h.totalBlockFor ≤ h.clAcks + n then 1 else 0 } := by
  unfold WriteHandler.signal
  split_ifs with hc
  · obtain ⟨h1, h2⟩ := hc
    simp [h1, h2]
  · rcases Decidable.em (h.clAchieved = true) with ha | ha
    · simp only [ha]
      simp [hc]
    · simp only [Bool.not_eq_true] at ha
      simp only [ha] at hc ⊢
      have : ¬h.totalBlockFor ≤ h.clAcks + n := by
        intro hle
        exact hc ⟨by simp, hle⟩
      simp [this]

theorem stepW_removed (hintStored : Nat → Bool) (s : HandlerSlot) (e : WEvent)
    (hr : s.removed = true) : stepW hintStored s e = s := by
  cases e <;> simp [stepW, got_response, got_failure_response, hr]

theorem response_fst_achieved (h : WriteHandler) (src : Nat) (ha : h.clAchieved = true) :
    (h.response src).1.clAchieved = true := by
  unfold WriteHandler.response
  split_ifs <;> simp [signal_def, ha]

theorem failure_response_fst_achieved (h : WriteHandler) (src count : Nat)
    (ha : h.clAchieved = true) : (h.failure_response src count).1.clAchieved = true := by
  unfold WriteHandler.failure_response WriteHandler.failureAcc
  split_ifs <;> simp [ha] <;> split_ifs <;> simp

theorem timeout_cb_achieved (hintStored : Nat → Bool) (h : WriteHandler)
    (ha : h.clAchieved = true) : (h.timeout_cb hintStored).clAchieved = true := by
  unfold WriteHandler.timeout_cb
  split_ifs <;> simp [signal_def, ha]

theorem checkEarly_achieved (hintStored : Nat → Bool) (s : HandlerSlot)
    (ha : s.h.clAchieved = true) :
    (checkEarlyCompletion hintStored s).h.clAchieved = true := by
  unfold checkEarlyCompletion
  split_ifs <;> simp [timeout_cb_achieved, ha]

theorem stepW_achieved_mono (hintStored : Nat → Bool) (s : HandlerSlot) (e : WEvent)
    (ha : s.h.clAchieved = true) : (stepW hintStored s e).h.clAchieved = true := by
  cases e with
  | ack src =>
    simp only [stepW, got_response]
    split_ifs with h1 h2
    · exact ha
    · exact response_fst_achieved s.h src ha
    · exact checkEarly_achieved hintStored _ (response_fst_achieved s.h src ha)
  | fail src count =>
    simp only [stepW, got_failure_response]
    split_ifs with h1 h2
    · exact ha
    · exact failure_response_fst_achieved s.h src count ha
    · exact checkEarly_achieved hintStored _ (failure_response_fst_achieved s.h src count ha)
  | timerFire =>
    simp only [stepW]
    split_ifs with h1
    · exact ha
    · exact timeout_cb_achieved hintStored s.h ha

theorem runW_achieved_mono (hintStored : Nat → Bool) (evs : List WEvent) :
    ∀ s : HandlerSlot, s.h.clAchieved = true →
      (runW hintStored s evs).h.clAchieved = true := by
  induction evs with
  | nil => intro s hs; exact hs
  | cons e t ih =>
    intro s hs
    exact ih _ (stepW_achieved_mono hintStored s e hs)

theorem outcome_of_achieved (h : WriteHandler) (ha : h.clAchieved = true) :
    h.outcome = .success := by
  simp [WriteHandler.outcome, ha]

theorem runW_append (hintStored : Nat → Bool) (p q : List WEvent) (s : HandlerSlot) :
    runW hintStored s (p ++ q) = runW hintStored (runW hintStored s p) q := by
  induction p generalizing s with
  | nil => rfl
  | cons e t ih => simp [runW, ih]

theorem runW_removed (hintStored : Nat → Bool) (evs : List WEvent) (s : HandlerSlot)
    (hr : s.removed = true) : runW hintStored s evs = s := by
  induction evs with
  | nil => rfl
  | cons e t ih => rw [runW, stepW_removed hintStored s e hr, ih]

theorem stepW_const (hintStored : Nat → Bool) (s : HandlerSlot) (e : WEvent) :
    (stepW hintStored s e).h.totalBlockFor = s.h.totalBlockFor ∧
    (stepW hintStored s e).h.totalEndpoints = s.h.totalEndpoints ∧
    (stepW hintStored s e).h.clIsAny = s.h.clIsAny := by
  cases e <;>
    simp only [stepW, got_response, got_failure_response, checkEarlyCompletion,
      WriteHandler.response, WriteHandler.failure_response, WriteHandler.failureAcc,
      WriteHandler.timeout_cb, signal_def] <;>
    split_ifs <;> simp_all

theorem runW_const (hintStored : Nat → Bool) (evs : List WEvent) :
    ∀ s : HandlerSlot,
      (runW hintStored s evs).h.totalBlockFor = s.h.totalBlockFor ∧
      (runW hintStored s evs).h.totalEndpoints = s.h.totalEndpoints ∧
      (runW hintStored s evs).h.clIsAny = s.h.clIsAny := by
  induction evs with
  | nil => intro s; exact ⟨rfl, rfl, rfl⟩
  | cons e t ih =>
    intro s
    obtain ⟨h1, h2, h3⟩ := ih (stepW hintStored s e)
    obtain ⟨g1, g2, g3⟩ := stepW_const hintStored s e
    exact ⟨by rw [runW, h1, g1], by rw [runW, h2, g2], by rw [runW, h3, g3]⟩

theorem fail_step_failure (hintStored : Nat → Bool) (s : HandlerSlot) (src c : Nat)
    (hrem : s.removed = false) (hach : s.h.clAchieved = false)
    (hany : s.h.clIsAny = false) (hmem : src ∈ s.h.targets)
    (hover : s.h.totalEndpoints < s.h.totalBlockFor + s.h.failedCount + c) :
    (stepW hintStored s (.fail src c)).removed = true ∧
    (stepW hintStored s (.fail src c)).h.outcome =
      .failureExc s.h.clAcks (s.h.failedCount + c) s.h.totalBlockFor := by
  simp only [stepW, got_failure_response, hrem, Bool.false_eq_true, if_false,
    WriteHandler.failure_response, hmem, if_pos, WriteHandler.failureAcc]
  have hc : s.h.totalEndpoints < s.h.totalBlockFor + (s.h.failedCount + c) := by omega
  simp [hany, hc, WriteHandler.outcome, hach]

theorem timer_step_timeout (hintStored : Nat → Bool) (s : HandlerSlot)
    (hrem : s.removed = false) (hach : s.h.clAchieved = false)
    (hany : s.h.clIsAny = false) :
    (stepW hintStored s .timerFire).removed = true ∧
    (stepW hintStored s .timerFire).h.outcome =
      .timeoutExc s.h.clAcks s.h.totalBlockFor := by
  simp only [stepW, hrem, Bool.false_eq_true, if_false, WriteHandler.timeout_cb]
  simp [hach, hany, WriteHandler.outcome]

theorem signal_targets (h : WriteHandler) (n : Nat) : (h.signal n).targets = h.targets := by
  rw [signal_def]

theorem signal_clAcks (h : WriteHandler) (n : Nat) : (h.signal n).clAcks = h.clAcks + n := by
  rw [signal_def]

theorem signal_totalBlockFor (h : WriteHandler) (n : Nat) :
    (h.signal n).totalBlockFor = h.totalBlockFor := by
  rw [signal_def]

theorem signal_totalEndpoints (h : WriteHandler) (n : Nat) :
    (h.signal n).totalEndpoints = h.totalEndpoints := by
  rw [signal_def]

theorem signal_allFailures (h : WriteHandler) (n : Nat) :
    (h.signal n).allFailures = h.allFailures := by
  rw [signal_def]

theorem signal_failedCount (h : WriteHandler) (n : Nat) :
    (h.signal n).failedCount = h.failedCount := by
  rw [signal_def]

theorem signal_err (h : WriteHandler) (n : Nat) : (h.signal n).err = h.err := by
  rw [signal_def]

theorem signal_clIsAny (h : WriteHandler) (n : Nat) : (h.signal n).clIsAny = h.clIsAny := by
  rw [signal_def]

theorem signal_achieved (h : WriteHandler) (n : Nat) :
    (h.signal n).clAchieved = (h.clAchieved || decide (h.totalBlockFor ≤ h.clAcks + n)) := by
  rw [signal_def]

theorem stepW_ack_mem_last (hintStored : Nat → Bool) (s : HandlerSlot) (src : Nat)
    (hrem : s.removed = false) (hmem : src ∈ s.h.targets)
    (he : s.h.targets.erase src = []) :
    stepW hintStored s (.ack src) =
      { h := { s.h.signal 1 with targets := [] }, removed := true } := by
  obtain ⟨sh, srem⟩ := s
  simp only at hrem hmem he
  subst hrem
  simp only [stepW, got_response, Bool.false_eq_true, if_false,
    WriteHandler.response, hmem, if_pos]
  have ht : (sh.signal 1).targets.erase src = [] := by rw [signal_targets, he]
  simp [ht]

theorem stepW_ack_mem_cont (hintStored : Nat → Bool) (s : HandlerSlot) (src : Nat)
    (hrem : s.removed = false) (hmem : src ∈ s.h.targets)
    (he : s.h.targets.erase src ≠ [])
    (hnf : s.h.allFailures ≠ (s.h.targets.erase src).length) :
    stepW hintStored s (.ack src) =
      { h := { s.h.signal 1 with targets := s.h.targets.erase src }, removed := false } := by
  obtain ⟨sh, srem⟩ := s
  simp only at hrem hmem he hnf
  subst hrem
  simp only [stepW, got_response, Bool.false_eq_true, if_false,
    WriteHandler.response, hmem, if_pos]
  have ht : (sh.signal 1).targets.erase src = sh.targets.erase src := by
    rw [signal_targets]
  have hemp : ((sh.signal 1).targets.erase src).isEmpty = false := by
    rw [ht]
    simpa using he
  have hnf2 : ¬((sh.signal 1).allFailures = ((sh.signal 1).targets.erase src).length) := by
    rw [signal_allFailures, ht]
    exact hnf
  simp only [hemp, Bool.false_eq_true, if_false, checkEarlyCompletion]
  rw [if_neg]
  · simp only [ht]
  · simpa [ht] using hnf2

theorem stepW_ack_nomem (hintStored : Nat → Bool) (s : HandlerSlot) (src : Nat)
    (hrem : s.removed = false) (hmem : src ∉ s.h.targets)
    (hnil : s.h.targets ≠ [])
    (hnf : s.h.allFailures ≠ s.h.targets.length) :
    stepW hintStored s (.ack src) = s := by
  obtain ⟨sh, srem⟩ := s
  simp only at hrem hmem hnil hnf
  subst hrem
  simp only [stepW, got_response, Bool.false_eq_true, if_false,
    WriteHandler.response, hmem, if_neg, if_false]
  have hemp : sh.targets.isEmpty = false := by simpa using hnil
  simp [hemp, checkEarlyCompletion, hnf]

theorem ack_step_invariant (hintStored : Nat → Bool) (Q : Nat) (s : HandlerSlot) (src : Nat)
    (hQ : s.h.totalBlockFor = Q)
    (hf : s.h.allFailures = 0)
    (hne : s.removed = false → s.h.targets ≠ [])
    (hsum : s.h.clAcks + s.h.targets.length = s.h.totalEndpoints)
    (hiff : s.h.clAchieved = true ↔ Q ≤ s.h.clAcks) :
    (stepW hintStored s (.ack src)).h.totalBlockFor = Q ∧
    (stepW hintStored s (.ack src)).h.allFailures = 0 ∧
    ((stepW hintStored s (.ack src)).removed = false →
      (stepW hintStored s (.ack src)).h.targets ≠ []) ∧
    (stepW hintStored s (.ack src)).h.clAcks +
      (stepW hintStored s (.ack src)).h.targets.length =
      (stepW hintStored s (.ack src)).h.totalEndpoints ∧
    ((stepW hintStored s (.ack src)).h.clAchieved = true ↔
      Q ≤ (stepW hintStored s (.ack src)).h.clAcks) := by
  by_cases hrem : s.removed = true
  · rw [stepW_removed hintStored s _ hrem]
    exact ⟨hQ, hf, hne, hsum, hiff⟩
  · replace hrem : s.removed = false := by simpa using hrem
    have hnil : s.h.targets ≠ [] := hne hrem
    have hlp : 0 < s.h.targets.length := List.length_pos.mpr hnil
    have hiff2 : (s.h.clAchieved || decide (s.h.totalBlockFor ≤ s.h.clAcks + 1)) = true ↔
        Q ≤ s.h.clAcks + 1 := by
      constructor
      · intro hor
        rcases (Bool.or_eq_true _ _).mp hor with hc | hc
        · exact Nat.le_succ_of_le (hiff.mp hc)
        · rw [hQ] at hc
          exact of_decide_eq_true hc
      · intro hle
        apply (Bool.or_eq_true _ _).mpr
        right
        rw [hQ]
        exact decide_eq_true hle
    by_cases hmem : src ∈ s.h.targets
    · have hlen : (s.h.targets.erase src).length = s.h.targets.length - 1 :=
        List.length_erase_of_mem hmem
      by_cases he : s.h.targets.erase src = []
      · rw [stepW_ack_mem_last hintStored s src hrem hmem he]
        rw [he] at hlen
        simp only [List.length_nil] at hlen
        refine ⟨?_, ?_, by simp, ?_, ?_⟩
        · simp [signal_totalBlockFor, hQ]
        · simp [signal_allFailures, hf]
        · simp only [List.length_nil]
          rw [signal_clAcks, signal_totalEndpoints]
          omega
        · simp only []
          rw [signal_clAcks, signal_achieved]
          exact hiff2
      · have hnf : s.h.allFailures ≠ (s.h.targets.erase src).length := by
          rw [hf]
          have := List.length_pos.mpr he
          omega
        rw [stepW_ack_mem_cont hintStored s src hrem hmem he hnf]
        refine ⟨?_, ?_, by intro _; simpa using he, ?_, ?_⟩
        · simp [signal_totalBlockFor, hQ]
        · simp [signal_allFailures, hf]
        · simp only []
          rw [signal_clAcks, signal_totalEndpoints]
          omega
        · simp only []
          rw [signal_clAcks, signal_achieved]
          exact hiff2
    · have hnf : s.h.allFailures ≠ s.h.targets.length := by
        rw [hf]
        omega
      rw [stepW_ack_nomem hintStored s src hrem hmem hnil hnf]
      exact ⟨hQ, hf, hne, hsum, hiff⟩

theorem runW_acks_only (hintStored : Nat → Bool) (Q : Nat) (evs : List WEvent)
    (hacks : ∀ e ∈ evs, ∃ src, e = WEvent.ack src) :
    ∀ s : HandlerSlot,
      s.h.totalBlockFor = Q →
      s.h.allFailures = 0 →
      (s.removed = false → s.h.targets ≠ []) →
      s.h.clAcks + s.h.targets.length = s.h.totalEndpoints →
      (s.h.clAchieved = true ↔ Q ≤ s.h.clAcks) →
      (runW hintStored s evs).h.allFailures = 0 ∧
      (runW hintStored s evs).h.clAcks + (runW hintStored s evs).h.targets.length =
        (runW hintStored s evs).h.totalEndpoints ∧
      ((runW hintStored s evs).h.clAchieved = true ↔ Q ≤ (runW hintStored s evs).h.clAcks) := by
  induction evs with
  | nil =>
    intro s _ hf _ hsum hiff
    exact ⟨hf, hsum, hiff⟩
  | cons e t ih =>
    intro s hQ hf hne hsum hiff
    obtain ⟨src, rfl⟩ := hacks e (by simp)
    obtain ⟨g1, g2, g3, g4, g5⟩ := ack_step_invariant hintStored Q s src hQ hf hne hsum hiff
    exact ih (fun x hx => hacks x (by simp [hx])) _ g1 g2 g3 g4 g5

theorem stepW_notAchieved_acks_lt (hintStored : Nat → Bool) (s : HandlerSlot) (e : WEvent)
    (hinv : s.h.clAchieved = false → s.h.clAcks < s.h.totalBlockFor) :
    (stepW hintStored s e).h.clAchieved = false →
      (stepW hintStored s e).h.clAcks < (stepW hintStored s e).h.totalBlockFor := by
  cases e <;>
    simp only [stepW, got_response, got_failure_response, checkEarlyCompletion,
      WriteHandler.response, WriteHandler.failure_response, WriteHandler.failureAcc,
      WriteHandler.timeout_cb, signal_def] <;>
    split_ifs <;>
    (intro hna; simp_all; try omega)

theorem runW_notAchieved_acks_lt (hintStored : Nat → Bool) (evs : List WEvent) :
    ∀ s : HandlerSlot,
      (s.h.clAchieved = false → s.h.clAcks < s.h.totalBlockFor) →
      ((runW hintStored s evs).h.clAchieved = false →
        (runW hintStored s evs).h.clAcks < (runW hintStored s evs).h.totalBlockFor) := by
  induction evs with
  | nil => intro s hs; exact hs
  | cons e t ih =>
    intro s hs
    exact ih _ (stepW_notAchieved_acks_lt hintStored s e hs)

/-- C2: for a coordinated write at a simple non-ANY consistency level with
required acknowledgement count Q over the contacted targets:
(1) as soon as the consistency level is achieved — which by (2) happens exactly
when Q distinct contacted replicas have acknowledged, each counted once — the
write completes successfully no matter what arrives afterwards; (3) once
block_for plus the failure count exceeds the number of contacted endpoints,
the handler completes with a Failure error carrying (received, failed,
required); (4) if the timer fires before the level was achieved the handler
completes with a Timeout error carrying (received, required), with received
below Q. -/
theorem c2_write_quorum_semantics (hintStored : Nat → Bool) (targets : List Nat) (Q : Nat)
    (hQ1 : 1 ≤ Q) (hQN : Q ≤ targets.length) (evs : List WEvent) :
    (∀ p q, evs = p ++ q →
      (runW hintStored (initSlot targets [] Q false) p).h.clAchieved = true →
      (runW hintStored (initSlot targets [] Q false) evs).h.outcome = .success) ∧
    ((∀ e ∈ evs, ∃ src, e = WEvent.ack src) →
      (runW hintStored (initSlot targets [] Q false) evs).h.clAcks +
        (runW hintStored (initSlot targets [] Q false) evs).h.targets.length =
          targets.length ∧
      ((runW hintStored (initSlot targets [] Q false) evs).h.clAchieved = true ↔
         Q ≤ (runW hintStored (initSlot targets [] Q false) evs).h.clAcks)) ∧
    (∀ p src c q, evs = p ++ WEvent.fail src c :: q →
      (runW hintStored (initSlot targets [] Q false) p).removed = false →
      (runW hintStored (initSlot targets [] Q false) p).h.clAchieved = false →
      src ∈ (runW hintStored (initSlot targets [] Q false) p).h.targets →
      targets.length <
        Q + (runW hintStored (initSlot targets [] Q false) p).h.failedCount + c →
      (runW hintStored (initSlot targets [] Q false) evs).removed = true ∧
      (runW hintStored (initSlot targets [] Q false) evs).h.outcome =
        .failureExc (runW hintStored (initSlot targets [] Q false) p).h.clAcks
          ((runW hintStored (initSlot targets [] Q false) p).h.failedCount + c) Q) ∧
    (∀ p q, evs = p ++ WEvent.timerFire :: q →
      (runW hintStored (initSlot targets [] Q false) p).removed = false →
      (runW hintStored (initSlot targets [] Q false) p).h.clAchieved = false →
      (runW hintStored (initSlot targets [] Q false) p).h.clAcks < Q ∧
      (runW hintStored (initSlot targets [] Q false) evs).h.outcome =
        .timeoutExc (runW hintStored (initSlot targets [] Q false) p).h.clAcks Q) := by
  have hconst : ∀ p : List WEvent,
      (runW hintStored (initSlot targets [] Q false) p).h.totalBlockFor = Q ∧
      (runW hintStored (initSlot targets [] Q false) p).h.totalEndpoints = targets.length ∧
      (runW hintStored (initSlot targets [] Q false) p).h.clIsAny = false := by
    intro p
    exact runW_const hintStored p (initSlot targets [] Q false)
  refine ⟨?_, ?_, ?_, ?_⟩
  · intro p q hpq hach
    rw [hpq, runW_append]
    exact outcome_of_achieved _ (runW_achieved_mono hintStored q _ hach)
  · intro hacks
    have hnil : targets ≠ [] := by
      intro hx
      rw [hx] at hQN
      simp at hQN
      omega
    have hinit : (initSlot targets [] Q false).h.clAchieved = true ↔
        Q ≤ (initSlot targets [] Q false).h.clAcks := by
      simp only [initSlot, mkWriteHandler]
      constructor
      · intro hx
        simp at hx
      · intro hx
        omega
    obtain ⟨g1, g2, g3⟩ := runW_acks_only hintStored Q evs hacks
      (initSlot targets [] Q false) rfl rfl (fun _ => hnil)
      (by simp [initSlot, mkWriteHandler]) hinit
    obtain ⟨-, c2, -⟩ := hconst evs
    exact ⟨by rw [← c2]; exact g2, g3⟩
  · intro p src c q hpq hrem hach hmem hover
    obtain ⟨c1, c2, c3⟩ := hconst p
    have hover2 : (runW hintStored (initSlot targets [] Q false) p).h.totalEndpoints <
        (runW hintStored (initSlot targets [] Q false) p).h.totalBlockFor +
          (runW hintStored (initSlot targets [] Q false) p).h.failedCount + c := by
      rw [c1, c2]
      omega
    obtain ⟨f1, f2⟩ := fail_step_failure hintStored _ src c hrem hach c3 hmem (by omega)
    rw [hpq, runW_append]
    rw [runW] at *
    constructor
    · rw [runW_removed hintStored q _ f1]
      exact f1
    · rw [runW_removed hintStored q _ f1, f2, c1]
  · intro p q hpq hrem hach
    obtain ⟨c1, c2, c3⟩ := hconst p
    have hlt : (runW hintStored (initSlot targets [] Q false) p).h.clAcks < Q := by
      have hgen := runW_notAchieved_acks_lt hintStored p (initSlot targets [] Q false)
        (fun _ => by simp only [initSlot, mkWriteHandler]; omega) hach
      rw [c1] at hgen
      exact hgen
    obtain ⟨t1, t2⟩ := timer_step_timeout hintStored _ hrem hach c3
    refine ⟨hlt, ?_⟩
    rw [hpq, runW_append]
    rw [runW] at *
    rw [runW_removed hintStored q _ t1, t2, c1]

/-- Witness for C2 at a concrete instance: three contacted replicas, Q = 2,
acks from two distinct replicas followed by the timer; the write succeeds. -/
theorem c2_write_quorum_semantics_witness :
    (runW (fun _ => false) (initSlot [0, 1, 2] [] 2 false)
      [.ack 0, .ack 1, .timerFire]).h.outcome = .success :=
  (c2_write_quorum_semantics (fun _ => false) [0, 1, 2] 2 (by decide) (by decide)
    [.ack 0, .ack 1, .timerFire]).1 [.ack 0, .ack 1] [.timerFire] rfl (by decide)

theorem stepW_any_no_fail_err (hintStored : Nat → Bool) (s : HandlerSlot) (e : WEvent)
    (hany : s.h.clIsAny = true) (herr : s.h.err ≠ .failed) :
    (stepW hintStored s e).h.err ≠ .failed := by
  cases e <;>
    simp only [stepW, got_response, got_failure_response, checkEarlyCompletion,
      WriteHandler.response, WriteHandler.failure_response, WriteHandler.failureAcc,
      WriteHandler.timeout_cb, signal_def] <;>
    split_ifs <;>
    simp_all

theorem runW_any_no_fail_err (hintStored : Nat → Bool) (evs : List WEvent) :
    ∀ s : HandlerSlot, s.h.clIsAny = true → s.h.err ≠ .failed →
      (runW hintStored s evs).h.err ≠ .failed := by
  induction evs with
  | nil => intro s _ herr; exact herr
  | cons e t ih =>
    intro s hany herr
    have hany2 : (stepW hintStored s e).h.clIsAny = true := by
      rw [(stepW_const hintStored s e).2.2]
      exact hany
    exact ih _ hany2 (stepW_any_no_fail_err hintStored s e hany herr)

/-- C3 (amended): hint semantics of consistency level ANY versus the rest.
(1) For an ANY write none of whose live targets has acknowledged, when the
timeout path runs the coordinator attempts to store a hint for every
outstanding target, every stored hint counts toward the acknowledgement
threshold, and the write succeeds iff at least block_for hints (one, for a
single remaining requirement) were stored. (2) For any other consistency
level, hints stored for dead endpoints when the write begins never touch the
acknowledgement count, and (3) the timeout path writes hints only when the
consistency level was already achieved — it never changes whether the level
is achieved, so a stored hint never by itself satisfies the threshold.
(4) An explicit replica failure is never counted toward failing an ANY write:
its handler never ends in the FAILURE error state (though failures from every
remaining target make it complete early through the hint path). -/
theorem c3_any_hint_semantics (hintStored : Nat → Bool) (s : HandlerSlot)
    (targets deadEndpoints : List Nat) (q : Nat) (evs : List WEvent) :
    (s.removed = false → s.h.clIsAny = true → s.h.clAchieved = false →
      s.h.clAcks = 0 →
      (stepW hintStored s .timerFire).removed = true ∧
      (stepW hintStored s .timerFire).h.clAcks =
        hint_to_dead_endpoints hintStored s.h.targets ∧
      ((stepW hintStored s .timerFire).h.outcome = .success ↔
        s.h.totalBlockFor ≤ hint_to_dead_endpoints hintStored s.h.targets)) ∧
    (s.h.clIsAny = false → s.h.hintToDeadOnBegin hintStored = s.h) ∧
    (s.h.clIsAny = false →
      (s.h.timeout_cb hintStored).clAchieved = s.h.clAchieved ∧
      (s.h.clAchieved = false → (s.h.timeout_cb hintStored).clAcks = s.h.clAcks)) ∧
    ((runW hintStored (initSlot targets deadEndpoints q true) evs).h.err ≠ .failed) := by
  refine ⟨?_, ?_, ?_, ?_⟩
  · intro hrem hany hach hacks
    simp only [stepW, hrem, Bool.false_eq_true, if_false]
    refine ⟨by simp, ?_, ?_⟩
    · simp only [WriteHandler.timeout_cb, hach, hany, Bool.false_eq_true, false_or,
        if_pos, signal_def]
      simp [hacks]
    · by_cases hle : s.h.totalBlockFor ≤ hint_to_dead_endpoints hintStored s.h.targets
      all_goals
        simp [WriteHandler.timeout_cb, hach, hany, signal_def, WriteHandler.outcome,
          hacks, hle]
  · intro hany
    simp [WriteHandler.hintToDeadOnBegin, hany]
  · intro hany
    simp only [WriteHandler.timeout_cb, hany]
    constructor
    · by_cases hach : s.h.clAchieved = true
      · simp [hach, signal_def]
      · replace hach : s.h.clAchieved = false := by simpa using hach
        simp [hach]
    · intro hach
      simp [hach]
  · refine runW_any_no_fail_err hintStored evs _ rfl (by simp [initSlot, mkWriteHandler])

/-- Counterexample for C3 as frozen: an explicit replica failure does
terminate an ANY write early. With a single live target, block_for 1 and a
hint store that succeeds, one failure response (no timer, no deadline) drives
the handler through check_for_early_completion into the hint/timeout path and
removes it from the table. -/
theorem c3_any_failure_terminates_counterexample :
    (initSlot [0] [] 1 true).removed = false ∧
    (runW (fun _ => true) (initSlot [0] [] 1 true) [WEvent.fail 0 1]).removed = true := by
  decide

/-- Witness for C3 (amended) at a concrete instance: an ANY handler with two
unacknowledged targets, block_for 1, and a hint store that succeeds for
endpoint 1 only; the timeout path stores one hint and the write succeeds. -/
theorem c3_any_hint_semantics_witness :
    (stepW (fun n => n = 1) (initSlot [0, 1] [] 1 true) .timerFire).removed = true ∧
    (stepW (fun n => n = 1) (initSlot [0, 1] [] 1 true) .timerFire).h.clAcks = 1 ∧
    (stepW (fun n => n = 1) (initSlot [0, 1] [] 1 true) .timerFire).h.outcome = .success := by
  have g := (c3_any_hint_semantics (fun n => n = 1) (initSlot [0, 1] [] 1 true)
    [0, 1] [] 1 []).1 rfl rfl rfl rfl
  refine ⟨g.1, ?_, ?_⟩
  · rw [g.2.1]
    decide
  · rw [g.2.2]
    decide

theorem signal_fires_eq (h : WriteHandler) (n : Nat)
    (hinv : h.fires = if h.clAchieved = true then 1 else 0) :
    (h.signal n).fires = if (h.signal n).clAchieved = true then 1 else 0 := by
  rw [signal_def] at *
  cases hach : h.clAchieved <;> simp [hach] at hinv ⊢ <;> simp [hinv] <;> split_ifs <;>
    simp_all

theorem timeout_cb_fires_eq (hintStored : Nat → Bool) (h : WriteHandler)
    (hinv : h.fires = if h.clAchieved = true then 1 else 0) :
    (h.timeout_cb hintStored).fires =
      if (h.timeout_cb hintStored).clAchieved = true then 1 else 0 := by
  have hs := signal_fires_eq h (hint_to_dead_endpoints hintStored h.targets) hinv
  by_cases hach : h.clAchieved = true
  · simp only [WriteHandler.timeout_cb, hach, true_or, if_true]
    simpa using hs
  · replace hach : h.clAchieved = false := by simpa using hach
    by_cases hany : h.clIsAny = true
    · simp only [WriteHandler.timeout_cb, hach, hany, Bool.false_eq_true, false_or, if_true]
      simpa using hs
    · replace hany : h.clIsAny = false := by simpa using hany
      simp only [WriteHandler.timeout_cb, hach, hany, Bool.false_eq_true, false_or, if_false]
      simpa [hach] using hinv

theorem response_fires_eq (h : WriteHandler) (src : Nat)
    (hinv : h.fires = if h.clAchieved = true then 1 else 0) :
    (h.response src).1.fires = if (h.response src).1.clAchieved = true then 1 else 0 := by
  unfold WriteHandler.response
  by_cases hmem : src ∈ h.targets
  · rw [if_pos hmem]
    simpa using signal_fires_eq h 1 hinv
  · rw [if_neg hmem]
    exact hinv

theorem failure_response_fires_const (h : WriteHandler) (src count : Nat) :
    (h.failure_response src count).1.fires = h.fires ∧
    (h.failure_response src count).1.clAchieved = h.clAchieved := by
  unfold WriteHandler.failure_response WriteHandler.failureAcc
  split_ifs <;> simp <;> split_ifs <;> simp

theorem checkEarly_fires_eq (hintStored : Nat → Bool) (s : HandlerSlot)
    (hinv : s.h.fires = if s.h.clAchieved = true then 1 else 0) :
    (checkEarlyCompletion hintStored s).h.fires =
      if (checkEarlyCompletion hintStored s).h.clAchieved = true then 1 else 0 := by
  unfold checkEarlyCompletion
  by_cases hc : s.h.allFailures = s.h.targets.length
  · rw [if_pos hc]
    simpa using timeout_cb_fires_eq hintStored s.h hinv
  · rw [if_neg hc]
    exact hinv

theorem stepW_fires_eq (hintStored : Nat → Bool) (s : HandlerSlot) (e : WEvent)
    (hinv : s.h.fires = if s.h.clAchieved = true then 1 else 0) :
    (stepW hintStored s e).h.fires =
      if (stepW hintStored s e).h.clAchieved = true then 1 else 0 := by
  by_cases hrem : s.removed = true
  · rw [stepW_removed hintStored s e hrem]
    exact hinv
  · replace hrem : s.removed = false := by simpa using hrem
    cases e with
    | ack src =>
      simp only [stepW, got_response, hrem, Bool.false_eq_true, if_false]
      by_cases hlast : (s.h.response src).2 = true
      · rw [if_pos hlast]
        simpa using response_fires_eq s.h src hinv
      · rw [if_neg hlast]
        exact checkEarly_fires_eq hintStored _ (by simpa using response_fires_eq s.h src hinv)
    | fail src count =>
      obtain ⟨hc1, hc2⟩ := failure_response_fires_const s.h src count
      have hfin : (s.h.failure_response src count).1.fires =
          if (s.h.failure_response src count).1.clAchieved = true then 1 else 0 := by
        rw [hc1, hc2]
        exact hinv
      simp only [stepW, got_failure_response, hrem, Bool.false_eq_true, if_false]
      by_cases hlast : (s.h.failure_response src count).2 = true
      · rw [if_pos hlast]
        simpa using hfin
      · rw [if_neg hlast]
        exact checkEarly_fires_eq hintStored _ (by simpa using hfin)
    | timerFire =>
      simp only [stepW, hrem, Bool.false_eq_true, if_false]
      simpa using timeout_cb_fires_eq hintStored s.h hinv

theorem runW_fires_eq (hintStored : Nat → Bool) (evs : List WEvent) :
    ∀ s : HandlerSlot, s.h.fires = (if s.h.clAchieved = true then 1 else 0) →
      (runW hintStored s evs).h.fires =
        if (runW hintStored s evs).h.clAchieved = true then 1 else 0 := by
  induction evs with
  | nil => intro s hs; exact hs
  | cons e t ih =>
    intro s hs
    exact ih _ (stepW_fires_eq hintStored s e hs)

/-- C9: terminal transitions happen exactly once and late responses are
no-ops. (1) Any event delivered for a handler slot already removed from the
coordinator's table leaves it untouched; (2) at the table level, an ack or a
failure for a response id with no entry leaves the table unchanged; (3) the
completion chain of a write response handler is started at most once over any
event sequence; (4) a reply reaching a Paxos accept-phase request tracker
whose promise has already been fulfilled changes nothing — no counter moves
and no promise fires twice. -/
theorem c9_terminal_once_late_noop (hintStored : Nat → Bool) :
    (∀ (s : HandlerSlot) (e : WEvent), s.removed = true → stepW hintStored s e = s) ∧
    (∀ (tbl : List (Nat × HandlerSlot)) (id src count : Nat),
      lookupSlot tbl id = none →
      got_response_table hintStored tbl id src = tbl ∧
      got_failure_response_table hintStored tbl id src count = tbl) ∧
    (∀ (targets deadEndpoints : List Nat) (q : Nat) (anyF : Bool) (evs : List WEvent),
      (runW hintStored (initSlot targets deadEndpoints q anyF) evs).h.fires ≤ 1) ∧
    (∀ (required live : Nat) (flag : Bool) (st : AcceptState) (r : AReply),
      st.decision.isSome = true → accept_proposal_step required live flag st r = st) := by
  refine ⟨stepW_removed hintStored, ?_, ?_, ?_⟩
  · intro tbl id src count hnone
    constructor
    · simp [got_response_table, hnone]
    · simp [got_failure_response_table, hnone]
  · intro targets deadEndpoints q anyF evs
    have := runW_fires_eq hintStored evs (initSlot targets deadEndpoints q anyF)
      (by simp [initSlot, mkWriteHandler])
    rw [this]
    split_ifs <;> omega
  · intro required live flag st r hsome
    simp [accept_proposal_step, hsome]

/-- Witness for C9 at concrete inputs: a removed slot ignores an ack, an empty
table ignores responses, a run that achieves its level fires once, and a
decided accept tracker ignores a late accept. -/
theorem c9_terminal_once_late_noop_witness :
    stepW (fun _ => false) { h := mkWriteHandler [0] [] 1 false, removed := true }
      (.ack 0) = { h := mkWriteHandler [0] [] 1 false, removed := true } ∧
    got_response_table (fun _ => false) [] 5 0 = [] ∧
    (runW (fun _ => false) (initSlot [0, 1] [] 1 false) [.ack 0, .ack 1]).h.fires ≤ 1 ∧
    accept_proposal_step 2 3 true
      { accepts := 2, rejects := 0, errors := 0, decision := some .accepted } .accept =
      { accepts := 2, rejects := 0, errors := 0, decision := some .accepted } := by
  have g := c9_terminal_once_late_noop (fun _ => false)
  exact ⟨g.1 _ _ rfl, (g.2.1 [] 5 0 0 rfl).1, g.2.2.1 [0, 1] [] 1 false [.ack 0, .ack 1],
    g.2.2.2 2 3 true _ .accept rfl⟩

/-! ## Helper lemmas: accept_proposal -/

theorem accept_step_decided (required live : Nat) (flag : Bool) (st : AcceptState)
    (r : AReply) (hsome : st.decision.isSome = true) :
    accept_proposal_step required live flag st r = st := by
  simp [accept_proposal_step, hsome]

theorem accept_run_inv_flagfalse (required live : Nat) (rs : List AReply) :
    ∀ st : AcceptState,
      (st.decision = none → required + st.rejects + st.errors ≤ live ∧ st.accepts < required) →
      ((accept_proposal_run required live false st rs).decision = none →
        required + (accept_proposal_run required live false st rs).rejects +
          (accept_proposal_run required live false st rs).errors ≤ live ∧
        (accept_proposal_run required live false st rs).accepts < required) := by
  induction rs with
  | nil => intro st h; exact h
  | cons r t ih =>
    intro st hP
    apply ih
    intro hnone
    by_cases hsome : st.decision.isSome = true
    · rw [accept_step_decided required live false st r hsome] at hnone ⊢
      exact hP hnone
    · have hn : st.decision = none := by
        cases hd : st.decision
        · rfl
        · rw [hd] at hsome; simp at hsome
      obtain ⟨hb, ha⟩ := hP hn
      cases r <;>
        (simp only [accept_proposal_step, hn, Option.isSome_none, Bool.false_eq_true,
          if_false] at hnone ⊢) <;>
        split_ifs at hnone ⊢ <;> simp_all <;> omega

theorem accept_run_rejected_inv (required live : Nat) (rs : List AReply) :
    ∀ st : AcceptState,
      (st.decision = some .rejected →
        st.accepts = 0 ∧ st.errors = 0 ∧ st.rejects = live) →
      ((accept_proposal_run required live true st rs).decision = some .rejected →
        (accept_proposal_run required live true st rs).accepts = 0 ∧
        (accept_proposal_run required live true st rs).errors = 0 ∧
        (accept_proposal_run required live true st rs).rejects = live) := by
  induction rs with
  | nil => intro st h; exact h
  | cons r t ih =>
    intro st hP
    apply ih
    intro hrej
    by_cases hsome : st.decision.isSome = true
    · rw [accept_step_decided required live true st r hsome] at hrej ⊢
      exact hP hrej
    · have hn : st.decision = none := by
        cases hd : st.decision
        · rfl
        · rw [hd] at hsome; simp at hsome
      cases r <;>
        (simp only [accept_proposal_step, hn, Option.isSome_none, Bool.false_eq_true,
          if_false] at hrej ⊢) <;>
        split_ifs at hrej ⊢ <;> simp_all <;> omega

/-- C4: the two accept-outcome policies of `accept_proposal`.
(1) When replaying an earlier leader's proposal
(timeout_if_partially_accepted = false), the tracker never stays undecided
once a quorum of accepts is unreachable: while the promise is pending,
required + rejects + errors ≤ live and fewer than the required accepts have
arrived — so rejection (or failure) is concluded as soon as enough
rejects/errors arrive. (2) When proposing the coordinator's own value
(timeout_if_partially_accepted = true), a definite rejection is returned only
when zero replicas accepted, there were no errors, and every live endpoint
replied (all rejects). (3) In that mode, when the final reply arrives with at
least one accept or error but fewer than the required accepts, the caller is
given a write-timeout (not a hard failure) carrying (accepts, required). -/
theorem c4_accept_policies (required live : Nat) (hR1 : 1 ≤ required)
    (hRL : required ≤ live) (rs : List AReply) (st : AcceptState) :
    ((accept_proposal_run required live false acceptInit rs).decision = none →
      required + (accept_proposal_run required live false acceptInit rs).rejects +
        (accept_proposal_run required live false acceptInit rs).errors ≤ live ∧
      (accept_proposal_run required live false acceptInit rs).accepts < required) ∧
    ((accept_proposal_run required live true acceptInit rs).decision = some .rejected →
      (accept_proposal_run required live true acceptInit rs).accepts = 0 ∧
      (accept_proposal_run required live true acceptInit rs).errors = 0 ∧
      (accept_proposal_run required live true acceptInit rs).rejects = live) ∧
    (st.decision = none →
      st.accepts + (st.rejects + 1) + st.errors = live →
      st.accepts < required →
      required + st.errors ≤ live →
      (0 < st.accepts ∨ 0 < st.errors) →
      (accept_proposal_step required live true st .reject).decision =
        some (.timeoutExc st.accepts required)) := by
  refine ⟨?_, ?_, ?_⟩
  · exact accept_run_inv_flagfalse required live rs acceptInit
      (fun _ => ⟨by simp [acceptInit]; omega, by simp [acceptInit]; omega⟩)
  · exact accept_run_rejected_inv required live rs acceptInit
      (by simp [acceptInit])
  · intro hnone hsum hacc herr hnz
    simp only [accept_proposal_step, hnone, Option.isSome_none, Bool.false_eq_true,
      if_false]
    split_ifs with h1 h2 h3 h4 h5 h6 <;> rcases hnz with hz | hz <;> simp_all <;> omega

/-- Witness for C4 at required = 2 over 3 live endpoints: three rejects with
the own-value policy end in a definite rejection with zero accepts; one
accept then two rejects from all three replicas end in the
uncertainty-preserving write timeout. -/
theorem c4_accept_policies_witness :
    (accept_proposal_run 2 3 true acceptInit [.reject, .reject, .reject]).accepts = 0 ∧
    (accept_proposal_run 2 3 true acceptInit [.reject, .reject, .reject]).errors = 0 ∧
    (accept_proposal_run 2 3 true acceptInit [.reject, .reject, .reject]).rejects = 3 ∧
    (accept_proposal_step 2 3 true
      { accepts := 1, rejects := 1, errors := 0, decision := none } .reject).decision =
      some (.timeoutExc 1 2) := by
  have g1 := (c4_accept_policies 2 3 (by decide) (by decide) [.reject, .reject, .reject]
    acceptInit).2.1 (by decide)
  have g2 := (c4_accept_policies 2 3 (by decide) (by decide) []
    { accepts := 1, rejects := 1, errors := 0, decision := none }).2.2
    rfl (by decide) (by decide) (by decide) (by decide)
  exact ⟨g1.1, g1.2.1, g1.2.2, g2⟩

/-! ## Helper lemmas: begin_and_repair_paxos -/

theorem beginRepairIter_ballot_inv (st : BPState) (o : IterOracle) (st1 : BPState)
    (evs : List BPEvent) (b : Nat)
    (h : beginRepairIter st o = (st1, evs, some (.ballot b))) :
    ∃ s, o.prep = .summary s ∧ s.promised = true ∧ inProgressNewer s = false := by
  unfold beginRepairIter at h
  cases hdl : o.pastDeadline
  · simp only [hdl, Bool.false_eq_true, if_false] at h
    cases hp : o.prep with
    | threw => simp [hp] at h
    | summary s =>
      simp only [hp] at h
      cases hpm : s.promised
      · simp [hpm] at h
      · simp only [hpm, not_true, Bool.true_eq_false, Bool.not_eq_true,
          if_false, ite_false, ite_true] at h
        cases hin : inProgressNewer s
        · simp only [hin, Bool.false_eq_true, if_false] at h
          exact ⟨s, rfl, hpm, hin⟩
        · simp only [hin, if_pos] at h
          split_ifs at h <;> simp_all
  · simp [hdl] at h

theorem begin_and_repair_ballot_from (script : List IterOracle) :
    ∀ (st : BPState) (evs : List BPEvent) (b : Nat),
      begin_and_repair_paxos st script = (evs, some (.ballot b)) →
      ∃ o ∈ script, ∃ s, o.prep = .summary s ∧ s.promised = true ∧
        inProgressNewer s = false := by
  induction script with
  | nil =>
    intro st evs b h
    simp [begin_and_repair_paxos] at h
  | cons o os ih =>
    intro st evs b h
    rw [begin_and_repair_paxos] at h
    rcases hstep : beginRepairIter st o with ⟨st1, evs1, res1⟩
    rw [hstep] at h
    cases res1 with
    | none =>
      rcases hr : begin_and_repair_paxos st1 os with ⟨evs2, res2⟩
      simp only [hr] at h
      have hres : res2 = some (.ballot b) := by
        have := congrArg Prod.snd h
        simpa using this
      obtain ⟨o2, ho2, s2, hs2⟩ := ih st1 evs2 b (by rw [hr, hres])
      exact ⟨o2, by simp [ho2], s2, hs2⟩
    | some r1 =>
      have hr1 : r1 = .ballot b := by
        have := congrArg Prod.snd h
        simpa using this
      subst hr1
      obtain ⟨s, hs⟩ := beginRepairIter_ballot_inv st o st1 evs1 b hstep
      exact ⟨o, by simp, s, hs⟩

/-- C1: whenever the prepare promises reveal an accepted-but-uncommitted
proposal with a ballot newer than the most recent known commit,
begin_and_repair_paxos re-accepts that proposal under the coordinator's new
ballot; if the accept succeeds it learns (commits) it and takes a fresh round
(it does not return), and if the accept is preempted it aborts the ballot,
counts a contention and retries; a ballot allowing the caller's own value is
returned only from an iteration whose promises revealed no in-progress
proposal newer than the latest commit. -/
theorem c1_repair_before_own_value (st : BPState) (o : IterOracle) (s : PrepareSummary)
    (script : List IterOracle) :
    (o.pastDeadline = false → o.prep = .summary s → s.promised = true →
      inProgressNewer s = true →
      (BPEvent.repairAccept (get_timestamp_for_paxos st.lastTs o.clockNow st.minTs)
          (s.mostRecentProposal.getD 0) ∈ (beginRepairIter st o).2.1) ∧
      (∀ b, (beginRepairIter st o).2.2 ≠ some (.ballot b)) ∧
      (o.acceptOk = true → o.learnOk = true →
        BPEvent.repairLearn (get_timestamp_for_paxos st.lastTs o.clockNow st.minTs) ∈
            (beginRepairIter st o).2.1 ∧
        (beginRepairIter st o).2.2 = none) ∧
      (o.acceptOk = false → (beginRepairIter st o).2.2 = none ∧
        (beginRepairIter st o).1.contentions = st.contentions + 1)) ∧
    (∀ (evs : List BPEvent) (b : Nat),
      begin_and_repair_paxos st script = (evs, some (.ballot b)) →
      ∃ o2 ∈ script, ∃ s2, o2.prep = .summary s2 ∧ s2.promised = true ∧
        inProgressNewer s2 = false) := by
  constructor
  · intro hdl hp hpm hin
    simp only [beginRepairIter, hdl, Bool.false_eq_true, if_false, hp, hpm, hin,
      not_true, Bool.true_eq_false, if_pos]
    split_ifs with h1 h2 <;> simp_all
  · exact begin_and_repair_ballot_from script st

/-- Witness for C1 at a concrete iteration: the promises reveal an accepted
proposal with ballot 50 and a commit with ballot 20, so the round re-accepts
under the fresh ballot 5, learns it, and does not return a ballot. -/
theorem c1_repair_before_own_value_witness :
    BPEvent.repairAccept 5 50 ∈
      (beginRepairIter ⟨0, 0, 0⟩
        ⟨false, 5, .summary ⟨true, 50, some 50, some 20, false⟩, true, true, true⟩).2.1 ∧
    BPEvent.repairLearn 5 ∈
      (beginRepairIter ⟨0, 0, 0⟩
        ⟨false, 5, .summary ⟨true, 50, some 50, some 20, false⟩, true, true, true⟩).2.1 ∧
    (beginRepairIter ⟨0, 0, 0⟩
        ⟨false, 5, .summary ⟨true, 50, some 50, some 20, false⟩, true, true, true⟩).2.2 =
      none := by
  have g := (c1_repair_before_own_value ⟨0, 0, 0⟩
    ⟨false, 5, .summary ⟨true, 50, some 50, some 20, false⟩, true, true, true⟩
    ⟨true, 50, some 50, some 20, false⟩ []).1 rfl rfl rfl (by decide)
  obtain ⟨g1, _, g3, _⟩ := g
  have g4 := g3 rfl rfl
  exact ⟨by simpa using g1, by simpa using g4.1, g4.2⟩

/-- C5: evaluation at the failing input. Iteration one prepares ballot 5 and
is rejected by a replica that already promised ballot 100; because the
rejection path leaves min_timestamp_micros_to_use untouched (the update on
the promised path is skipped by the continue), the retry prepares ballot 10 —
it does not postdate the rejecting ballot, whose timestamp + 1 is 101. -/
theorem c5_rejected_prepare_not_postdated :
    (begin_and_repair_paxos ⟨0, 0, 0⟩
      [⟨false, 5, .summary ⟨false, 100, none, none, false⟩, true, true, true⟩,
       ⟨false, 10, .summary ⟨true, 0, none, none, false⟩, true, true, true⟩]) =
      ([.prepareSent 5, .prepareSent 10], some (.ballot 10)) ∧
    (beginRepairIter ⟨0, 0, 0⟩
      ⟨false, 5, .summary ⟨false, 100, none, none, false⟩, true, true, true⟩).1.minTs = 0 ∧
    10 < 100 + 1 := by
  decide

/-! ## Helper lemmas: digest_read_resolver -/

theorem digests_match_of_allequal (r : DigestResolver) (c : Nat)
    (h : ∀ d ∈ r.digestResults, d = c) : r.digests_match = true := by
  unfold DigestResolver.digests_match
  cases hl : r.digestResults with
  | nil => rfl
  | cons d ds =>
    have hd : d = c := h d (by rw [hl]; simp)
    simp only [List.all_eq_true]
    intro x hx
    have hxc : x = c := h x (by rw [hl]; simp [List.mem_cons]; right; simpa using hx)
    simp [hxc, hd]

theorem digest_step_inv (c : Nat) (x : RResp) (r : DigestResolver)
    (hx : x = RResp.data c ∨ x = RResp.digest c)
    (htc : r.targetsCount ≠ 1)
    (hfail : r.requestFailed = false)
    (hall : ∀ d ∈ r.digestResults, d = c)
    (hrep : r.clReported = true → r.clResult = some true)
    (hnrep : r.clReported = false → r.clResult = none) :
    let r1 := runDigestResolver r [x]
    r1.targetsCount = r.targetsCount ∧ r1.requestFailed = false ∧
    (∀ d ∈ r1.digestResults, d = c) ∧
    (r1.clReported = true → r1.clResult = some true) ∧
    (r1.clReported = false → r1.clResult = none) := by
  have hpush : ∀ rp : DigestResolver, rp.targetsCount = r.targetsCount →
      (∀ d ∈ rp.digestResults, d = c) →
      (rp.clReported = true → rp.clResult = some true) →
      (rp.clReported = false → rp.clResult = none) →
      rp.got_response_d.targetsCount = r.targetsCount ∧
      rp.got_response_d.requestFailed = rp.requestFailed ∧
      (∀ d ∈ rp.got_response_d.digestResults, d = c) ∧
      (rp.got_response_d.clReported = true → rp.got_response_d.clResult = some true) ∧
      (rp.got_response_d.clReported = false → rp.got_response_d.clResult = none) := by
    intro rp htcp hallp hrepp hnrepp
    by_cases hr : rp.clReported = true
    · have heq : rp.got_response_d = rp := by
        unfold DigestResolver.got_response_d
        rw [if_neg]
        simp [hr]
      rw [heq]
      exact ⟨htcp, rfl, hallp, hrepp, hnrepp⟩
    · replace hr : rp.clReported = false := by simpa using hr
      by_cases hfire : rp.blockFor ≤ rp.clResponses + 1 ∧ rp.hasData = true
      · have heq : rp.got_response_d = { rp with
            clResponses := rp.clResponses + 1,
            clReported := true,
            clResult := some ({ rp with clResponses := rp.clResponses + 1 } :
              DigestResolver).digests_match } := by
          unfold DigestResolver.got_response_d
          rw [if_pos (by simp [hr]), if_pos (by simpa using hfire)]
        rw [heq]
        have hm : ({ rp with clResponses := rp.clResponses + 1 } :
            DigestResolver).digests_match = true := digests_match_of_allequal _ c hallp
        refine ⟨htcp, rfl, hallp, ?_, ?_⟩
        · intro _
          simp [hm]
        · intro hab
          simp at hab
      · have heq : rp.got_response_d = { rp with clResponses := rp.clResponses + 1 } := by
          unfold DigestResolver.got_response_d
          rw [if_pos (by simp [hr]), if_neg (by simpa using hfire)]
        rw [heq]
        refine ⟨htcp, rfl, hallp, ?_, fun _ => hnrepp hr⟩
        intro hab
        simp only at hab
        rw [hr] at hab
        simp at hab
  rcases hx with hx | hx <;> subst hx
  · simp only [runDigestResolver, DigestResolver.add_data, hfail, Bool.false_eq_true,
      if_false, ite_false, ite_true]
    have hall2 : ∀ d ∈ (r.digestResults ++ [if r.targetsCount = 1 then 0 else c]),
        d = c := by
      intro d hd
      rcases List.mem_append.mp hd with hd | hd
      · exact hall d hd
      · simp only [List.mem_singleton] at hd
        rw [hd, if_neg htc]
    obtain ⟨g1, g2, g3, g4, g5⟩ := hpush { r with
      digestResults := r.digestResults ++ [if r.targetsCount = 1 then 0 else c],
      hasData := true, requestFailed := false } rfl hall2 hrep hnrep
    exact ⟨g1, g2, g3, g4, g5⟩
  · simp only [runDigestResolver, DigestResolver.add_digest, hfail, Bool.false_eq_true,
      if_false, ite_false, ite_true]
    have hall2 : ∀ d ∈ (r.digestResults ++ [c]), d = c := by
      intro d hd
      rcases List.mem_append.mp hd with hd | hd
      · exact hall d hd
      · simpa using hd
    obtain ⟨g1, g2, g3, g4, g5⟩ := hpush { r with
      digestResults := r.digestResults ++ [c], requestFailed := false } rfl hall2 hrep hnrep
    exact ⟨g1, g2, g3, g4, g5⟩

theorem digest_run_inv (c : Nat) (rs : List RResp)
    (hall : ∀ x ∈ rs, x = RResp.data c ∨ x = RResp.digest c) :
    ∀ r : DigestResolver, r.targetsCount ≠ 1 → r.requestFailed = false →
      (∀ d ∈ r.digestResults, d = c) →
      (r.clReported = true → r.clResult = some true) →
      (r.clReported = false → r.clResult = none) →
      (∀ d ∈ (runDigestResolver r rs).digestResults, d = c) ∧
      ((runDigestResolver r rs).clReported = true →
        (runDigestResolver r rs).clResult = some true) ∧
      ((runDigestResolver r rs).clReported = false →
        (runDigestResolver r rs).clResult = none) := by
  induction rs with
  | nil =>
    intro r _ _ h1 h2 h3
    exact ⟨h1, h2, h3⟩
  | cons x t ih =>
    intro r htc hfail h1 h2 h3
    have hx := hall x (by simp)
    obtain ⟨g1, g2, g3, g4, g5⟩ := digest_step_inv c x r hx htc hfail h1 h2 h3
    have hstep : ∀ u : List RResp, runDigestResolver r (x :: u) =
        runDigestResolver (runDigestResolver r [x]) u := by
      intro u
      cases hxx : x <;> simp [runDigestResolver]
    rw [hstep t]
    exact ih (fun y hy => hall y (by simp [hy])) _ (by rw [g1]; exact htc) g2 g3 g4 g5

/-- C6: reads whose digests agree do not reconcile. When every reply carries
the same digest value, the resolver's digests match, so (1) the foreground
read never triggers reconciliation (no mutation-data requests, no repair
writes: the executor's digest-mismatch branch is not taken), (2) the
background check started for extra targets does not trigger a repair either,
(3) whenever block_for replies including the full-data reply have arrived,
the result is delivered with matching digests; and (4) with a single digest
response the digests always count as matching — in particular (5) when only
one target was queried. -/
theorem c6_digest_match_no_reconcile (targetsCount blockFor c : Nat) (rs : List RResp)
    (hall : ∀ x ∈ rs, x = RResp.data c ∨ x = RResp.digest c)
    (hlen : rs.length ≤ targetsCount) :
    executeForegroundReconcile
      (runDigestResolver (initDigestResolver targetsCount blockFor) rs) = false ∧
    executeBackgroundReconcile
      (runDigestResolver (initDigestResolver targetsCount blockFor) rs) = false ∧
    ((runDigestResolver (initDigestResolver targetsCount blockFor) rs).clReported = true →
      (runDigestResolver (initDigestResolver targetsCount blockFor) rs).clResult =
        some true) ∧
    (∀ r : DigestResolver, r.digestResults.length ≤ 1 → r.digests_match = true) ∧
    (targetsCount = 1 →
      (runDigestResolver (initDigestResolver targetsCount blockFor) rs).digests_match =
        true) := by
  have hsingle : ∀ r : DigestResolver, r.digestResults.length ≤ 1 →
      r.digests_match = true := by
    intro r hr
    unfold DigestResolver.digests_match
    cases hl : r.digestResults with
    | nil => rfl
    | cons d ds =>
      rw [hl] at hr
      simp only [List.length_cons] at hr
      have : ds = [] := by
        cases ds with
        | nil => rfl
        | cons a b => simp at hr
      simp [this]
  by_cases htc : targetsCount = 1
  · subst htc
    have hres : ∀ q : DigestResolver, q = runDigestResolver (initDigestResolver 1 blockFor) rs →
        q.digestResults.length ≤ 1 ∧
        (q.clReported = true → q.clResult = some true) ∧
        (q.clReported = false → q.clResult = none) := by
      intro q hq
      cases rs with
      | nil =>
        subst hq
        simp [runDigestResolver, initDigestResolver]
      | cons x t =>
        have ht : t = [] := by
          simp only [List.length_cons] at hlen
          cases t with
          | nil => rfl
          | cons a b => simp at hlen
        subst ht
        subst hq
        rcases hall x (by simp) with hx | hx <;> subst hx
        · by_cases hfire : blockFor ≤ 1
          · simp [runDigestResolver, DigestResolver.add_data, initDigestResolver,
              DigestResolver.got_response_d, hfire, DigestResolver.digests_match]
          · simp [runDigestResolver, DigestResolver.add_data, initDigestResolver,
              DigestResolver.got_response_d, hfire]
        · simp [runDigestResolver, DigestResolver.add_digest, initDigestResolver,
            DigestResolver.got_response_d]
    obtain ⟨q1, q2, q3⟩ := hres _ rfl
    have hm := hsingle _ q1
    refine ⟨?_, ?_, q2, hsingle, fun _ => hm⟩
    · unfold executeForegroundReconcile
      cases hrep : (runDigestResolver (initDigestResolver 1 blockFor) rs).clReported
      · simp [q3 hrep]
      · simp [q2 hrep]
    · unfold executeBackgroundReconcile
      simp [hm]
  · obtain ⟨g1, g2, g3⟩ := digest_run_inv c rs hall (initDigestResolver targetsCount blockFor)
      htc rfl (by simp [initDigestResolver]) (by simp [initDigestResolver])
      (fun _ => rfl)
    have hm := digests_match_of_allequal _ c g1
    refine ⟨?_, ?_, g2, hsingle, fun h1 => absurd h1 htc⟩
    · unfold executeForegroundReconcile
      cases hrep : (runDigestResolver (initDigestResolver targetsCount blockFor) rs).clReported
      · simp [g3 hrep]
      · simp [g2 hrep]
    · unfold executeBackgroundReconcile
      simp [hm]

/-- Witness for C6 at a concrete instance: three targets, block_for 2, a data
reply and one identical digest; the result is delivered on matching digests
and no reconciliation is triggered. -/
theorem c6_digest_match_no_reconcile_witness :
    executeForegroundReconcile
      (runDigestResolver (initDigestResolver 3 2) [.data 7, .digest 7]) = false ∧
    executeBackgroundReconcile
      (runDigestResolver (initDigestResolver 3 2) [.data 7, .digest 7]) = false ∧
    (runDigestResolver (initDigestResolver 3 2) [.data 7, .digest 7]).clResult =
      some true := by
  have g := c6_digest_match_no_reconcile 3 2 7 [.data 7, .digest 7]
    (by decide) (by decide)
  exact ⟨g.1, g.2.1, g.2.2.1 (by decide)⟩

/-- C7: whenever a reconciling read delivers its result, the repair write
round for the computed diffs was scheduled and had resolved first: every
trace of the reconcile recursion that contains setResult ends with the
repair being scheduled, the repair future resolving, and only then the
read's result promise being fulfilled. -/
theorem c7_repair_awaited_before_result (orig : CmdLimits) (script : List ResolveOutcome) :
    ∀ cmd : CmdLimits, RecEvent.setResult ∈ reconcileRun orig cmd script →
      ∃ t, reconcileRun orig cmd script =
        t ++ [.repairScheduled, .repairDone, .setResult] := by
  induction script with
  | nil =>
    intro cmd h
    simp [reconcileRun] at h
  | cons o os ih =>
    intro cmd h
    rw [reconcileRun] at h ⊢
    by_cases ht : o.resolveThrew = true
    · simp [reconcileRound, ht] at h
    · by_cases hd : deliverCondition orig o = true
      · by_cases hr : o.repairOk = true
        · refine ⟨[.mutationDataReq cmd.rowLimit], ?_⟩
          simp [reconcileRound, ht, hd, hr]
        · simp [reconcileRound, ht, hd, hr] at h
      · have hstep : reconcileRound orig cmd o =
            ([.mutationDataReq cmd.rowLimit, .retryRound (buildRetryCmd cmd o)],
              some (buildRetryCmd cmd o)) := by
          simp [reconcileRound, ht, hd]
        rw [hstep] at h ⊢
        simp only [List.mem_append] at h
        rcases h with h | h
        · simp at h
        · obtain ⟨t, htr⟩ := ih (buildRetryCmd cmd o) h
          refine ⟨[RecEvent.mutationDataReq cmd.rowLimit,
            RecEvent.retryRound (buildRetryCmd cmd o)] ++ t, ?_⟩
          simp [htr]

/-- Witness for C7 at a concrete two-round script: the first round is
incomplete and retries, the second delivers after its repair write resolves. -/
theorem c7_repair_awaited_before_result_witness :
    ∃ t, reconcileRun ⟨3, 100, 50, true⟩ ⟨3, 100, 50, true⟩
      [⟨false, false, 2, false, false, false, false, 0, 1, 1, 2, true⟩,
       ⟨false, false, 3, false, true, false, false, 0, 1, 1, 3, true⟩] =
      t ++ [.repairScheduled, .repairDone, .setResult] :=
  c7_repair_awaited_before_result ⟨3, 100, 50, true⟩
    [⟨false, false, 2, false, false, false, false, 0, 1, 1, 2, true⟩,
     ⟨false, false, 3, false, true, false, false, 0, 1, 1, 3, true⟩]
    ⟨3, 100, 50, true⟩ (by decide)

/-- Counterexample for C8 as frozen: with previous limit t = 3 and l = 2 live
rows returned, the code retries with limit 5 = 3*3/2 + 1, while the claim's
formula t*t/l (clamped, t+1 when l = 0) gives 4. -/
theorem c8_retry_limit_counterexample :
    RecEvent.retryRound ⟨5, 100, queryMaxPartitions, true⟩ ∈
      (reconcileRound ⟨3, 100, queryMaxPartitions, true⟩ ⟨3, 100, queryMaxPartitions, true⟩
        ⟨false, false, 2, false, false, false, false, 0, 1, 1, 2, true⟩).1 ∧
    specRetryLimit 3 2 = 4 ∧ ¬(5 : Nat) = 4 := by
  decide

/-- C8 (amended): the short-read retry loop and its adaptive limit. (1) When
a round cannot be trusted (reconciliation incomplete) and the shortage was
bounded by the total row limit, the read is retried and the retry command's
row limit is min(query::max_rows, t*t/l + 1) for previous limit t and l > 0
live reconciled rows, and min(query::max_rows, t + 1) when l = 0; (2) this
limit is adaptively larger: below the clamp, the new limit strictly exceeds
the old one whenever l ≤ t; (3) the retries stop as soon as the reconciled
output is provably not missing data — every replica's data exhausted or the
requested limits reached — with no partition short-read. -/
theorem c8_adaptive_retry_limit (orig cmd : CmdLimits) (o : ResolveOutcome)
    (t l : Nat) :
    (o.resolveThrew = false → deliverCondition orig o = false →
      o.anyPartitionShortRead = false → o.increasePerPartitionLimit = false →
      cmd.rowLimit ≠ queryMaxRows →
      (reconcileRound orig cmd o).2 = some (buildRetryCmd cmd o) ∧
      (buildRetryCmd cmd o).rowLimit =
        min queryMaxRows
          (if o.totalLiveCount = 0 then cmd.rowLimit + 1
           else cmd.rowLimit * cmd.rowLimit / o.totalLiveCount + 1)) ∧
    (l ≤ t → t < queryMaxRows → t < retryLimitX t l) ∧
    (o.resolveThrew = false → o.incomplete = false →
      o.anyPartitionShortRead = false →
      (o.allReachedEnd = true ∨ orig.rowLimit ≤ o.rrRowCount) →
      (reconcileRound orig cmd o).2 = none) := by
  refine ⟨?_, ?_, ?_⟩
  · intro hthrew hdel hany hinc hrow
    constructor
    · simp [reconcileRound, hthrew, hdel]
    · simp only [buildRetryCmd, hany, hinc, Bool.false_eq_true, false_or, if_false]
      by_cases hz : o.totalLiveCount = 0
      · simp only [hz, if_pos]
        split_ifs <;> simp [retryLimitX, hz]
      · simp only [hz, if_false]
        split_ifs <;> simp [retryLimitX, hz]
  · intro hl ht
    unfold retryLimitX
    by_cases hz : l = 0
    · subst hz
      simp only [if_pos]
      exact Nat.lt_min.mpr ⟨ht, by omega⟩
    · have hl0 : 0 < l := Nat.pos_of_ne_zero hz
      rw [if_neg hz]
      refine Nat.lt_min.mpr ⟨ht, ?_⟩
      have hle : t ≤ t * t / l := by
        rw [Nat.le_div_iff_mul_le hl0]
        exact Nat.mul_le_mul_left t hl
      omega
  · intro hthrew hinc hany hstop
    have hdel : deliverCondition orig o = true := by
      unfold deliverCondition
      rcases hstop with hs | hs <;> simp [hinc, hany, hs]
    simp only [reconcileRound, hthrew, Bool.false_eq_true, if_false, hdel, if_pos]
    split_ifs <;> rfl

/-- Witness for C8 (amended) at t = 3, l = 2: the retry command's row limit
evaluates to 5 and exceeds the previous limit 3. -/
theorem c8_adaptive_retry_limit_witness :
    (buildRetryCmd ⟨3, 100, queryMaxPartitions, true⟩
      ⟨false, false, 2, false, false, false, false, 0, 1, 1, 2, true⟩).rowLimit = 5 ∧
    3 < retryLimitX 3 2 := by
  have g := c8_adaptive_retry_limit ⟨3, 100, queryMaxPartitions, true⟩
    ⟨3, 100, queryMaxPartitions, true⟩
    ⟨false, false, 2, false, false, false, false, 0, 1, 1, 2, true⟩ 3 2
  have g1 := (g.1 rfl (by decide) rfl rfl (by decide)).2
  have g2 := g.2.1 (by decide) (by decide)
  refine ⟨?_, g2⟩
  rw [g1]
  decide

/-- Counterexample for C10 as frozen: natural endpoints {1,2,3}, two pending
endpoints {10,11}, only the natural ones alive. The replica set has more than
one pending endpoint, yet the unavailable exception thrown carries required =
4 (the quorum-plus-pending count, since the too-few-live check runs first),
not participants + 1 = 6. -/
theorem c10_pending_unavailable_counterexample :
    get_paxos_participants false (fun _ => false) (fun n => n ≤ 3) [1, 2, 3] [10, 11] =
      .error (PaxosUnavailable.mk 4 3 false) ∧
    ¬((3 + 2) + 1 : Nat) = 4 := by
  exact ⟨by rfl, by decide⟩

/-- C10 (amended): get_paxos_participants.
(1) When at least required-participants live endpoints exist and more than
one pending endpoint remains (after removing pending endpoints already listed
as natural), the operation is refused up front with an unavailable exception
whose required count is participants + 1, which exceeds any possible number
of live endpoints; (2) when fewer live endpoints than required exist, the
generic unavailable exception carrying (required, live) is thrown first —
before any message is sent and regardless of the pending count; (3) otherwise
the call succeeds and the required participant count is
floor(natural/2) + 1 + pending. -/
theorem c10_paxos_participants (localSerial : Bool) (isLocal alive : Nat → Bool)
    (naturalIn pendingIn : List Nat) :
    (paxosRequired (paxosNatural localSerial isLocal naturalIn)
        (paxosPending localSerial isLocal naturalIn pendingIn) ≤
      (paxosLive alive (paxosNatural localSerial isLocal naturalIn)
        (paxosPending localSerial isLocal naturalIn pendingIn)).length →
      1 < (paxosPending localSerial isLocal naturalIn pendingIn).length →
      get_paxos_participants localSerial isLocal alive naturalIn pendingIn =
        .error (PaxosUnavailable.mk
          ((paxosPending localSerial isLocal naturalIn pendingIn).length +
            (paxosNatural localSerial isLocal naturalIn).length + 1)
          (paxosLive alive (paxosNatural localSerial isLocal naturalIn)
            (paxosPending localSerial isLocal naturalIn pendingIn)).length
          true) ∧
      (paxosLive alive (paxosNatural localSerial isLocal naturalIn)
        (paxosPending localSerial isLocal naturalIn pendingIn)).length <
        (paxosPending localSerial isLocal naturalIn pendingIn).length +
          (paxosNatural localSerial isLocal naturalIn).length + 1) ∧
    ((paxosLive alive (paxosNatural localSerial isLocal naturalIn)
        (paxosPending localSerial isLocal naturalIn pendingIn)).length <
      paxosRequired (paxosNatural localSerial isLocal naturalIn)
        (paxosPending localSerial isLocal naturalIn pendingIn) →
      get_paxos_participants localSerial isLocal alive naturalIn pendingIn =
        .error (PaxosUnavailable.mk
          (paxosRequired (paxosNatural localSerial isLocal naturalIn)
            (paxosPending localSerial isLocal naturalIn pendingIn))
          (paxosLive alive (paxosNatural localSerial isLocal naturalIn)
            (paxosPending localSerial isLocal naturalIn pendingIn)).length
          false)) ∧
    ((paxosPending localSerial isLocal naturalIn pendingIn).length ≤ 1 →
      paxosRequired (paxosNatural localSerial isLocal naturalIn)
        (paxosPending localSerial isLocal naturalIn pendingIn) ≤
      (paxosLive alive (paxosNatural localSerial isLocal naturalIn)
        (paxosPending localSerial isLocal naturalIn pendingIn)).length →
      get_paxos_participants localSerial isLocal alive naturalIn pendingIn =
        .ok (PaxosParticipants.mk
          (paxosLive alive (paxosNatural localSerial isLocal naturalIn)
            (paxosPending localSerial isLocal naturalIn pendingIn))
          ((paxosNatural localSerial isLocal naturalIn).length / 2 + 1 +
            (paxosPending localSerial isLocal naturalIn pendingIn).length)
          (decide ((paxosPending localSerial isLocal naturalIn pendingIn).length +
              (paxosNatural localSerial isLocal naturalIn).length ≠
            (paxosLive alive (paxosNatural localSerial isLocal naturalIn)
              (paxosPending localSerial isLocal naturalIn pendingIn)).length)))) := by
  have hlive : (paxosLive alive (paxosNatural localSerial isLocal naturalIn)
      (paxosPending localSerial isLocal naturalIn pendingIn)).length ≤
      (paxosNatural localSerial isLocal naturalIn).length +
        (paxosPending localSerial isLocal naturalIn pendingIn).length := by
    unfold paxosLive
    calc ((paxosNatural localSerial isLocal naturalIn ++
            paxosPending localSerial isLocal naturalIn pendingIn).filter alive).length ≤
        (paxosNatural localSerial isLocal naturalIn ++
          paxosPending localSerial isLocal naturalIn pendingIn).length :=
          List.length_filter_le _ _
      _ = _ := List.length_append _ _
  refine ⟨?_, ?_, ?_⟩
  · intro henough hpend
    constructor
    · unfold get_paxos_participants
      rw [if_neg (by omega), if_pos hpend]
    · omega
  · intro hfew
    unfold get_paxos_participants
    rw [if_pos hfew]
  · intro hpend henough
    unfold get_paxos_participants
    rw [if_neg (by omega), if_neg (by omega)]
    rfl

/-- Witness for C10 (amended): with all five endpoints alive and two pending,
the refusal carries participants + 1 = 6; with one pending and three live
natural endpoints, the call succeeds with required = 3. -/
theorem c10_paxos_participants_witness :
    get_paxos_participants false (fun _ => false) (fun _ => true) [1, 2, 3] [10, 11] =
      .error (PaxosUnavailable.mk 6 5 true) ∧
    get_paxos_participants false (fun _ => false) (fun _ => true) [1, 2, 3] [10] =
      .ok (PaxosParticipants.mk [1, 2, 3, 10] 3 false) := by
  constructor
  · have g := (c10_paxos_participants false (fun _ => false) (fun _ => true)
      [1, 2, 3] [10, 11]).1 (by decide) (by decide)
    rw [g.1]
    rfl
  · have g := (c10_paxos_participants false (fun _ => false) (fun _ => true)
      [1, 2, 3] [10]).2.2 (by decide) (by decide)
    rw [g]
    rfl
